import Mathlib

/-!
Verification of the capture-and-normalize pipeline and HTTP control plane of
`neo_hotkeys.py` (file `src/n.py`).  Python strings are embedded as `List Char`;
the pure text-normalization functions (`combine_chunks`,
`extract_from_first_numbered`, `trim_to_question_end`) are translated
line-by-line from the source; the image pipeline is embedded with an explicit
`Img` record and the HTTP handler `do_POST` as a function over an explicit
environment (extractor/OCR/flag configuration) and server state.
-/

namespace Neo

/-- Convert a Lean string literal to the `List Char` embedding of Python text. -/
def toL (s : String) : List Char := s.toList

/-- Python `str.isspace` / `str.strip` whitespace characters (the set stripped by
`str.strip()` with no arguments). -/
def pySpace (c : Char) : Bool :=
  c == ' ' || c == '\t' || c == '\n' || c == '\r' ||
  c.toNat == 0x0b || c.toNat == 0x0c ||
  (0x1c ≤ c.toNat && c.toNat ≤ 0x1f) || c.toNat == 0x85 || c.toNat == 0xa0 ||
  c.toNat == 0x1680 || (0x2000 ≤ c.toNat && c.toNat ≤ 0x200a) ||
  c.toNat == 0x2028 || c.toNat == 0x2029 || c.toNat == 0x202f ||
  c.toNat == 0x205f || c.toNat == 0x3000

/-- Line-boundary characters recognised by Python `str.splitlines` (with `\r\n`
counting as a single boundary, handled separately). -/
def isBreak (c : Char) : Bool :=
  c == '\n' || c == '\r' || c.toNat == 0x0b || c.toNat == 0x0c ||
  c.toNat == 0x1c || c.toNat == 0x1d || c.toNat == 0x1e || c.toNat == 0x85 ||
  c.toNat == 0x2028 || c.toNat == 0x2029

/-- Attach a character to the front of the first segment. -/
def consHead (c : Char) : List (List Char) → List (List Char)
  | [] => [[c]]
  | l :: ls => (c :: l) :: ls

/-- Split on every line boundary, keeping a (possibly empty) final segment:
`splitBreaks "a\nb" = ["a","b"]`, `splitBreaks "a\n" = ["a", ""]`,
`splitBreaks "" = [""]`.  `\r\n` is one boundary. -/
def splitBreaks : List Char → List (List Char)
  | [] => [[]]
  | c :: rest =>
    if c = '\r' then
      match rest with
      | '\n' :: rest2 => [] :: splitBreaks rest2
      | [] => [[], []]
      | d :: r2 => [] :: splitBreaks (d :: r2)
    else if isBreak c then [] :: splitBreaks rest
    else consHead c (splitBreaks rest)

/-- Python `str.splitlines()`: split on line boundaries and drop the final
segment when it is empty (so `"".splitlines() = []`, `"a\n".splitlines() = ["a"]`). -/
def splitlines (s : List Char) : List (List Char) :=
  let ps := splitBreaks s
  if ps.getLast? = some [] then ps.dropLast else ps

/-- Python `str.strip()`: drop leading and trailing whitespace. -/
def pystrip (s : List Char) : List Char :=
  ((s.dropWhile pySpace).reverse.dropWhile pySpace).reverse

/-- One line of the `combine_chunks` loop body (`src/n.py` lines 235-242): strip
the line, skip it when blank or already seen, otherwise record it in the seen
set and append it to the output list.  The state is `(seen, lines_out)`. -/
def combineStep (st : List (List Char) × List (List Char)) (line : List Char) :
    List (List Char) × List (List Char) :=
  let l := pystrip line
  if l = [] then st
  else if l ∈ st.1 then st
  else (l :: st.1, st.2 ++ [l])

/-- The double loop of `combine_chunks`: over chunks, then over the lines of
each chunk. -/
def combineFold (chunks : List (List Char)) :
    List (List Char) × List (List Char) :=
  chunks.foldl (fun st chunk => (splitlines chunk).foldl combineStep st) ([], [])

/-- Python `"\n".join` on the embedded strings. -/
def joinNL : List (List Char) → List Char
  | [] => []
  | [l] => l
  | l :: rest => l ++ '\n' :: joinNL rest

/-- `combine_chunks` (`src/n.py` lines 232-243): deduplicate stripped non-blank
lines across chunks keeping first occurrences, join with newlines, strip. -/
def combine_chunks (chunks : List (List Char)) : List Char :=
  pystrip (joinNL (combineFold chunks).2)

example : combine_chunks [toL "b\na", toL "a\nc"] = toL "b\na\nc" := by decide

/-- Specification-side dedup (from the spec's words): keep the first occurrence
of each distinct element, drop later duplicates. -/
def firstKeep : List (List Char) → List (List Char)
  | [] => []
  | x :: xs => x :: firstKeep (xs.filter (fun y => decide (y ≠ x)))
termination_by l => l.length
decreasing_by simpa using Nat.lt_succ_of_le (List.length_filter_le _ _)

/-- Specification-side list of whitespace-trimmed non-blank lines of all chunks,
chunks in order and lines within each chunk in order. -/
def linesOfChunks : List (List Char) → List (List Char)
  | [] => []
  | ch :: rest =>
      ((splitlines ch).map pystrip).filter (fun l => decide (l ≠ [])) ++ linesOfChunks rest

/-- All lines of all chunks, in order (flattening of the double loop). -/
def linesFlat : List (List Char) → List (List Char)
  | [] => []
  | ch :: rest => splitlines ch ++ linesFlat rest

lemma combineFold_eq_flat (chunks : List (List Char)) :
    combineFold chunks = (linesFlat chunks).foldl combineStep ([], []) := by
  suffices h : ∀ st : List (List Char) × List (List Char),
      chunks.foldl (fun st chunk => (splitlines chunk).foldl combineStep st) st
        = (linesFlat chunks).foldl combineStep st by
    exact h ([], [])
  induction chunks with
  | nil => intro st; rfl
  | cons ch rest ih =>
      intro st
      simp only [List.foldl_cons, linesFlat, List.foldl_append]
      exact ih _

lemma foldl_combineStep_eq (lines : List (List Char)) :
    ∀ seen out, (lines.foldl combineStep (seen, out)).2
      = out ++ firstKeep ((lines.map pystrip).filter
          (fun l => decide (l ≠ [] ∧ l ∉ seen))) := by
  induction lines with
  | nil => intro seen out; simp [firstKeep]
  | cons line rest ih =>
      intro seen out
      by_cases hnil : pystrip line = []
      · have hstep : combineStep (seen, out) line = (seen, out) := by
          simp [combineStep, hnil]
        simp only [List.foldl_cons, hstep, List.map_cons, List.filter_cons]
        rw [ih seen out]
        simp [hnil]
      · by_cases hseen : pystrip line ∈ seen
        · have hstep : combineStep (seen, out) line = (seen, out) := by
            simp [combineStep, hnil, hseen]
          simp only [List.foldl_cons, hstep, List.map_cons, List.filter_cons]
          rw [ih seen out]
          simp [hnil, hseen]
        · have hstep : combineStep (seen, out) line
              = (pystrip line :: seen, out ++ [pystrip line]) := by
            simp [combineStep, hnil, hseen]
          simp only [List.foldl_cons, hstep, List.map_cons, List.filter_cons]
          rw [ih (pystrip line :: seen) (out ++ [pystrip line])]
          have hpred : decide (pystrip line ≠ [] ∧ pystrip line ∉ seen) = true := by
            simp [hnil, hseen]
          rw [hpred]
          simp only [if_true]
          rw [firstKeep, List.filter_filter]
          have hfc : ∀ y : List Char,
              (decide (y ≠ pystrip line) && decide (y ≠ [] ∧ y ∉ seen))
                = decide (y ≠ [] ∧ y ∉ pystrip line :: seen) := by
            intro y
            by_cases h1 : y = []
            · simp [h1]
            · by_cases h2 : y ∈ seen
              · simp [h1, h2]
              · by_cases h3 : y = pystrip line <;> simp [h1, h2, h3]
          have hff : (List.filter (fun y => decide (y ≠ pystrip line) &&
                    decide (y ≠ [] ∧ y ∉ seen)) (rest.map pystrip))
              = List.filter (fun y => decide (y ≠ [] ∧ y ∉ pystrip line :: seen))
                  (rest.map pystrip) :=
            List.filter_congr (fun y _ => hfc y)
          rw [hff]
          simp [List.append_assoc]

lemma linesOfChunks_eq_flat (chunks : List (List Char)) :
    linesOfChunks chunks
      = ((linesFlat chunks).map pystrip).filter (fun l => decide (l ≠ [])) := by
  induction chunks with
  | nil => rfl
  | cons ch rest ih =>
      simp only [linesOfChunks, linesFlat, List.map_append, List.filter_append, ih]

/-- The output list built by `combine_chunks`'s loop is exactly the
first-occurrence dedup of the trimmed non-blank lines. -/
lemma combineFold_snd (chunks : List (List Char)) :
    (combineFold chunks).2 = firstKeep (linesOfChunks chunks) := by
  rw [combineFold_eq_flat, foldl_combineStep_eq, linesOfChunks_eq_flat]
  have : (List.filter (fun l => decide (l ≠ [] ∧ l ∉ ([] : List (List Char))))
            ((linesFlat chunks).map pystrip))
      = List.filter (fun l => decide (l ≠ []))
            ((linesFlat chunks).map pystrip) :=
    List.filter_congr (fun y _ => by simp)
  rw [this, List.nil_append]

lemma dropWhile_head_false (f : Char → Bool) :
    ∀ (l : List Char) (c : Char), (l.dropWhile f).head? = some c → f c = false := by
  intro l
  induction l with
  | nil => intro c h; simp at h
  | cons a t ih =>
      intro c h
      by_cases ha : f a
      · rw [List.dropWhile_cons, if_pos ha] at h
        exact ih c h
      · rw [List.dropWhile_cons, if_neg ha] at h
        simp at h
        subst h
        exact Bool.eq_false_iff.mpr ha

lemma dropWhile_exists_append (f : Char → Bool) :
    ∀ l : List Char, ∃ u, u ++ l.dropWhile f = l := by
  intro l
  induction l with
  | nil => exact ⟨[], rfl⟩
  | cons a t ih =>
      by_cases ha : f a
      · obtain ⟨u, hu⟩ := ih
        exact ⟨a :: u, by simp [List.dropWhile_cons, ha, hu]⟩
      · exact ⟨[], by simp [List.dropWhile_cons, ha]⟩

lemma mem_dropWhile (f : Char → Bool) (l : List Char) (c : Char)
    (h : c ∈ l.dropWhile f) : c ∈ l := by
  obtain ⟨u, hu⟩ := dropWhile_exists_append f l
  rw [← hu]
  exact List.mem_append_right u h

lemma pystrip_head? (s : List Char) (c : Char)
    (h : (pystrip s).head? = some c) : pySpace c = false := by
  unfold pystrip at h
  set t := s.dropWhile pySpace with ht
  set v := t.reverse.dropWhile pySpace with hv
  obtain ⟨u, hu⟩ := dropWhile_exists_append pySpace t.reverse
  rw [← hv] at hu
  have htv : t = v.reverse ++ u.reverse := by
    have := congrArg List.reverse hu
    simpa using this.symm
  have hvne : v.reverse ≠ [] := by
    intro hnil
    rw [hnil] at h
    simp at h
  have : t.head? = some c := by
    rw [htv, List.head?_append]
    cases hvr : v.reverse.head? with
    | none => exact absurd (List.head?_eq_none_iff.mp hvr) hvne
    | some d =>
        have : d = c := by rw [hvr] at h; exact Option.some_injective _ h
        subst this
        rfl
  exact dropWhile_head_false pySpace s c (ht ▸ this)

lemma pystrip_getLast? (s : List Char) (c : Char)
    (h : (pystrip s).getLast? = some c) : pySpace c = false := by
  unfold pystrip at h
  rw [List.getLast?_reverse] at h
  exact dropWhile_head_false pySpace _ c h

lemma mem_pystrip (s : List Char) (c : Char) (h : c ∈ pystrip s) : c ∈ s := by
  unfold pystrip at h
  rw [List.mem_reverse] at h
  have h2 := mem_dropWhile pySpace _ c h
  rw [List.mem_reverse] at h2
  exact mem_dropWhile pySpace s c h2

lemma dropWhile_eq_self_of_head (f : Char → Bool) (l : List Char)
    (h : ∀ c, l.head? = some c → f c = false) : l.dropWhile f = l := by
  cases l with
  | nil => rfl
  | cons a t =>
      have := h a rfl
      rw [List.dropWhile_cons, if_neg (by simp [this])]

/-- `str.strip()` is the identity on a string whose first and last characters
are not whitespace. -/
lemma pystrip_eq_self (s : List Char)
    (h1 : ∀ c, s.head? = some c → pySpace c = false)
    (h2 : ∀ c, s.getLast? = some c → pySpace c = false) : pystrip s = s := by
  unfold pystrip
  rw [dropWhile_eq_self_of_head pySpace s h1]
  rw [dropWhile_eq_self_of_head pySpace s.reverse (by simpa using h2)]
  exact List.reverse_reverse s

lemma pystrip_idem (s : List Char) : pystrip (pystrip s) = pystrip s :=
  pystrip_eq_self (pystrip s) (pystrip_head? s) (pystrip_getLast? s)

lemma consHead_ne_nil (c : Char) (L : List (List Char)) : consHead c L ≠ [] := by
  cases L <;> simp [consHead]

lemma sb_nil : splitBreaks [] = [[]] := rfl

lemma sb_cons (c : Char) (rest : List Char) :
    splitBreaks (c :: rest) =
      if c = '\r' then
        match rest with
        | '\n' :: rest2 => [] :: splitBreaks rest2
        | [] => [[], []]
        | d :: r2 => [] :: splitBreaks (d :: r2)
      else if isBreak c then [] :: splitBreaks rest
      else consHead c (splitBreaks rest) := by
  rw [splitBreaks.eq_def]

lemma sb_cr_nil : splitBreaks ['\r'] = [[], []] := by
  rw [sb_cons, if_pos rfl]

lemma sb_crlf (r : List Char) : splitBreaks ('\r' :: '\n' :: r) = [] :: splitBreaks r := by
  rw [sb_cons, if_pos rfl]
  rfl

lemma sb_cr_other (d : Char) (r2 : List Char) (hd : d ≠ '\n') :
    splitBreaks ('\r' :: d :: r2) = [] :: splitBreaks (d :: r2) := by
  rw [sb_cons, if_pos rfl]
  split
  · next heq =>
      injection heq with h1 _
      exact absurd h1 hd
  · next heq => cases heq
  · next d' r2' heq =>
      injection heq with h1 h2
      subst h1
      subst h2
      rfl

lemma sb_break (c : Char) (rest : List Char) (hc : c ≠ '\r') (hb : isBreak c = true) :
    splitBreaks (c :: rest) = [] :: splitBreaks rest := by
  rw [sb_cons, if_neg hc, if_pos hb]

lemma sb_not_break (c : Char) (rest : List Char) (hc : c ≠ '\r') (hb : isBreak c = false) :
    splitBreaks (c :: rest) = consHead c (splitBreaks rest) := by
  rw [sb_cons, if_neg hc, if_neg (by simp [hb])]

lemma splitBreaks_ne_nil (s : List Char) : splitBreaks s ≠ [] := by
  cases s with
  | nil => simp [sb_nil]
  | cons c rest =>
      by_cases hc : c = '\r'
      · subst hc
        cases rest with
        | nil => simp [sb_cr_nil]
        | cons d r2 =>
            by_cases hd : d = '\n'
            · subst hd; simp [sb_crlf]
            · simp [sb_cr_other d r2 hd]
      · by_cases hb : isBreak c
        · simp [sb_break c rest hc hb]
        · rw [sb_not_break c rest hc (Bool.eq_false_iff.mpr hb)]
          exact consHead_ne_nil c _

lemma mem_splitBreaks_aux :
    ∀ (n : ℕ) (s : List Char), s.length ≤ n →
      ∀ l ∈ splitBreaks s, ∀ c ∈ l, isBreak c = false := by
  intro n
  induction n with
  | zero =>
      intro s hs l hl c hc
      have hsnil : s = [] := List.length_eq_zero.mp (Nat.le_zero.mp hs)
      subst hsnil
      simp [sb_nil] at hl
      subst hl
      simp at hc
  | succ n ih =>
      intro s hs l hl c hc
      cases s with
      | nil =>
          simp [sb_nil] at hl
          subst hl
          simp at hc
      | cons a rest =>
          simp only [List.length_cons] at hs
          by_cases ha : a = '\r'
          · subst ha
            cases rest with
            | nil =>
                rw [sb_cr_nil] at hl
                simp at hl
                subst hl
                simp at hc
            | cons d r2 =>
                simp only [List.length_cons] at hs
                by_cases hd : d = '\n'
                · subst hd
                  rw [sb_crlf] at hl
                  rcases List.mem_cons.mp hl with h1 | h2
                  · subst h1; simp at hc
                  · exact ih r2 (by omega) l h2 c hc
                · rw [sb_cr_other d r2 hd] at hl
                  rcases List.mem_cons.mp hl with h1 | h2
                  · subst h1; simp at hc
                  · exact ih (d :: r2) (by simp; omega) l h2 c hc
          · by_cases hb : isBreak a
            · rw [sb_break a rest ha hb] at hl
              rcases List.mem_cons.mp hl with h1 | h2
              · subst h1; simp at hc
              · exact ih rest (by omega) l h2 c hc
            · rw [sb_not_break a rest ha (Bool.eq_false_iff.mpr hb)] at hl
              rcases hsb : splitBreaks rest with _ | ⟨m, ms⟩
              · exact absurd hsb (splitBreaks_ne_nil rest)
              · rw [hsb] at hl
                simp only [consHead] at hl
                rcases List.mem_cons.mp hl with h1 | h2
                · subst h1
                  rcases List.mem_cons.mp hc with hca | hcm
                  · subst hca; exact Bool.eq_false_iff.mpr hb
                  · exact ih rest (by omega) m
                      (hsb ▸ List.mem_cons_self m ms) c hcm
                · exact ih rest (by omega) l
                    (hsb ▸ List.mem_cons_of_mem m h2) c hc

lemma mem_splitBreaks_no_break (s : List Char) :
    ∀ l ∈ splitBreaks s, ∀ c ∈ l, isBreak c = false :=
  mem_splitBreaks_aux s.length s le_rfl

lemma splitBreaks_no_break (s : List Char)
    (h : ∀ c ∈ s, isBreak c = false) : splitBreaks s = [s] := by
  induction s with
  | nil => simp [sb_nil]
  | cons a rest ih =>
      have ha : isBreak a = false := h a (List.mem_cons_self a rest)
      have hcr : a ≠ '\r' := by
        intro hcr
        subst hcr
        simp [isBreak] at ha
      rw [sb_not_break a rest hcr ha]
      rw [ih (fun c hc => h c (List.mem_cons_of_mem a hc))]
      rfl

lemma splitBreaks_append_newline (x t : List Char)
    (h : ∀ c ∈ x, isBreak c = false) :
    splitBreaks (x ++ '\n' :: t) = x :: splitBreaks t := by
  induction x with
  | nil =>
      rw [List.nil_append, sb_break '\n' t (by decide) (by decide)]
  | cons a x' ih =>
      have ha : isBreak a = false := h a (List.mem_cons_self a x')
      have hcr : a ≠ '\r' := by
        intro hcr; subst hcr; simp [isBreak] at ha
      rw [List.cons_append, sb_not_break a _ hcr ha]
      rw [ih (fun c hc => h c (List.mem_cons_of_mem a hc))]
      rfl

lemma splitlines_nil : splitlines [] = [] := by decide

lemma mem_dropLast {α : Type} (l : List α) (a : α) (h : a ∈ l.dropLast) : a ∈ l := by
  induction l with
  | nil => simp at h
  | cons x t ih =>
      cases t with
      | nil => simp at h
      | cons y t' =>
          rw [List.dropLast_cons₂] at h
          rcases List.mem_cons.mp h with h1 | h2
          · subst h1; exact List.mem_cons_self _ _
          · exact List.mem_cons_of_mem _ (ih h2)

lemma mem_splitlines_sub (s : List Char) (l : List Char)
    (h : l ∈ splitlines s) : l ∈ splitBreaks s := by
  unfold splitlines at h
  by_cases hc : (splitBreaks s).getLast? = some []
  · rw [if_pos hc] at h
    exact mem_dropLast _ _ h
  · rwa [if_neg hc] at h

lemma mem_splitlines_no_break (s : List Char) (l : List Char)
    (h : l ∈ splitlines s) : ∀ c ∈ l, isBreak c = false :=
  mem_splitBreaks_no_break s l (mem_splitlines_sub s l h)

lemma splitBreaks_joinNL (K : List (List Char)) (hne : K ≠ [])
    (h : ∀ l ∈ K, ∀ c ∈ l, isBreak c = false) :
    splitBreaks (joinNL K) = K := by
  induction K with
  | nil => exact absurd rfl hne
  | cons x rest ih =>
      cases rest with
      | nil =>
          show splitBreaks (joinNL [x]) = [x]
          exact splitBreaks_no_break x (h x (List.mem_cons_self x []))
      | cons y t =>
          show splitBreaks (x ++ '\n' :: joinNL (y :: t)) = x :: y :: t
          rw [splitBreaks_append_newline x _ (h x (List.mem_cons_self _ _))]
          rw [ih (by simp) (fun l hl => h l (List.mem_cons_of_mem x hl))]

lemma splitlines_joinNL (K : List (List Char))
    (h : ∀ l ∈ K, l ≠ [] ∧ ∀ c ∈ l, isBreak c = false) :
    splitlines (joinNL K) = K := by
  cases hK : K with
  | nil => simp [joinNL, splitlines_nil]
  | cons x rest =>
      rw [← hK]
      unfold splitlines
      rw [splitBreaks_joinNL K (by rw [hK]; simp) (fun l hl => (h l hl).2)]
      have : K.getLast? ≠ some [] := by
        intro hlast
        rcases List.getLast?_eq_some_iff.mp hlast with ⟨ys, hys⟩
        have : ([] : List Char) ∈ K := by rw [hys]; simp
        exact (h [] this).1 rfl
      rw [if_neg this]

lemma joinNL_head? (x : List Char) (rest : List (List Char)) (hx : x ≠ []) :
    (joinNL (x :: rest)).head? = x.head? := by
  cases rest with
  | nil => rfl
  | cons y t =>
      show (x ++ '\n' :: joinNL (y :: t)).head? = x.head?
      rw [List.head?_append]
      cases x with
      | nil => exact absurd rfl hx
      | cons a x' => rfl

lemma joinNL_getLast? (K : List (List Char)) (h : ∀ l ∈ K, l ≠ []) (hK : K ≠ []) :
    ∃ l, l ∈ K ∧ (joinNL K).getLast? = l.getLast? := by
  induction K with
  | nil => exact absurd rfl hK
  | cons x rest ih =>
      cases rest with
      | nil => exact ⟨x, List.mem_cons_self x [], rfl⟩
      | cons y t =>
          obtain ⟨l, hl, hlast⟩ := ih (fun m hm => h m (List.mem_cons_of_mem x hm)) (by simp)
          refine ⟨l, List.mem_cons_of_mem x hl, ?_⟩
          show (x ++ '\n' :: joinNL (y :: t)).getLast? = l.getLast?
          rw [List.getLast?_append]
          have hlne : l ≠ [] := h l (List.mem_cons_of_mem x hl)
          obtain ⟨c, hc⟩ : ∃ c, l.getLast? = some c := by
            cases hcase : l.getLast? with
            | none => exact absurd (List.getLast?_eq_none_iff.mp hcase) hlne
            | some c => exact ⟨c, rfl⟩
          have h2 : ('\n' :: joinNL (y :: t)).getLast? = some c := by
            show (['\n'] ++ joinNL (y :: t)).getLast? = some c
            rw [List.getLast?_append, hlast, hc]
            rfl
          rw [h2, hc]
          rfl

/-- `str.strip()` is the identity on the newline-join of already-stripped
non-empty lines. -/
lemma pystrip_joinNL (K : List (List Char))
    (h : ∀ l ∈ K, l ≠ [] ∧ pystrip l = l) :
    pystrip (joinNL K) = joinNL K := by
  cases hK : K with
  | nil => rfl
  | cons x rest =>
      rw [← hK]
      apply pystrip_eq_self
      · intro c hc
        rw [hK] at hc
        rw [joinNL_head? x rest (h x (by rw [hK]; exact List.mem_cons_self x rest)).1] at hc
        have hx := (h x (by rw [hK]; exact List.mem_cons_self x rest)).2
        rw [← hx] at hc
        exact pystrip_head? x c hc
      · intro c hc
        obtain ⟨l, hl, hlast⟩ := joinNL_getLast? K (fun m hm => (h m hm).1) (by rw [hK]; simp)
        rw [hlast] at hc
        have hfix := (h l hl).2
        rw [← hfix] at hc
        exact pystrip_getLast? l c hc

lemma firstKeep_subset_aux : ∀ (n : ℕ) (L : List (List Char)), L.length ≤ n →
    ∀ l ∈ firstKeep L, l ∈ L := by
  intro n
  induction n with
  | zero =>
      intro L hL l hl
      have : L = [] := List.length_eq_zero.mp (Nat.le_zero.mp hL)
      subst this
      simp [firstKeep] at hl
  | succ n ih =>
      intro L hL l hl
      cases L with
      | nil => simp [firstKeep] at hl
      | cons x xs =>
          rw [firstKeep] at hl
          rcases List.mem_cons.mp hl with h1 | h2
          · subst h1; exact List.mem_cons_self _ _
          · have hlen : (xs.filter (fun y => decide (y ≠ x))).length ≤ n := by
              have h1 := List.length_filter_le (fun y => decide (y ≠ x)) xs
              simp at hL
              omega
            have := ih _ hlen l h2
            exact List.mem_cons_of_mem x (List.mem_of_mem_filter this)

lemma firstKeep_subset (L : List (List Char)) (l : List Char)
    (h : l ∈ firstKeep L) : l ∈ L :=
  firstKeep_subset_aux L.length L le_rfl l h

lemma firstKeep_nodup_aux : ∀ (n : ℕ) (L : List (List Char)), L.length ≤ n →
    (firstKeep L).Nodup := by
  intro n
  induction n with
  | zero =>
      intro L hL
      have : L = [] := List.length_eq_zero.mp (Nat.le_zero.mp hL)
      subst this
      simp [firstKeep]
  | succ n ih =>
      intro L hL
      cases L with
      | nil => simp [firstKeep]
      | cons x xs =>
          rw [firstKeep]
          have hlen : (xs.filter (fun y => decide (y ≠ x))).length ≤ n := by
            have h1 := List.length_filter_le (fun y => decide (y ≠ x)) xs
            simp at hL
            omega
          refine List.nodup_cons.mpr ⟨?_, ih _ hlen⟩
          intro hmem
          have := firstKeep_subset _ _ hmem
          have := List.of_mem_filter this
          simp at this

lemma firstKeep_nodup (L : List (List Char)) : (firstKeep L).Nodup :=
  firstKeep_nodup_aux L.length L le_rfl

lemma firstKeep_eq_self (L : List (List Char)) (h : L.Nodup) : firstKeep L = L := by
  induction L with
  | nil => simp [firstKeep]
  | cons x xs ih =>
      rw [firstKeep]
      have hx : x ∉ xs := (List.nodup_cons.mp h).1
      have hxs : xs.Nodup := (List.nodup_cons.mp h).2
      have hfilter : xs.filter (fun y => decide (y ≠ x)) = xs := by
        apply List.filter_eq_self.mpr
        intro a ha
        simp
        intro heq
        subst heq
        exact hx ha
      rw [hfilter, ih hxs]

lemma linesOfChunks_props (chunks : List (List Char)) :
    ∀ l ∈ linesOfChunks chunks,
      l ≠ [] ∧ pystrip l = l ∧ ∀ c ∈ l, isBreak c = false := by
  induction chunks with
  | nil => intro l hl; simp [linesOfChunks] at hl
  | cons ch rest ih =>
      intro l hl
      rw [linesOfChunks] at hl
      rcases List.mem_append.mp hl with h1 | h2
      · have hne : l ≠ [] := by
          have := List.of_mem_filter h1
          simpa using this
        obtain ⟨line, hline, hmap⟩ := List.mem_map.mp (List.mem_of_mem_filter h1)
        refine ⟨hne, ?_, ?_⟩
        · rw [← hmap]; exact pystrip_idem line
        · intro c hc
          rw [← hmap] at hc
          exact mem_splitlines_no_break ch line hline c (mem_pystrip line c hc)
      · exact ih l h2

/-- The kept-line list of `combine_chunks`: each line is non-empty,
strip-fixed, break-free, and the list has no duplicates. -/
lemma combineKept_props (chunks : List (List Char)) :
    (∀ l ∈ firstKeep (linesOfChunks chunks),
        l ≠ [] ∧ pystrip l = l ∧ ∀ c ∈ l, isBreak c = false)
      ∧ (firstKeep (linesOfChunks chunks)).Nodup :=
  ⟨fun l hl => linesOfChunks_props chunks l (firstKeep_subset _ l hl),
   firstKeep_nodup _⟩

/-- Characterization of `combine_chunks`: it returns exactly the newline-join
of the first-occurrence dedup of the trimmed non-blank lines (the final
`.strip()` of the source is a no-op on that join). -/
lemma combine_chunks_eq (chunks : List (List Char)) :
    combine_chunks chunks = joinNL (firstKeep (linesOfChunks chunks)) := by
  unfold combine_chunks
  rw [combineFold_snd]
  exact pystrip_joinNL _ (fun l hl =>
    ⟨((combineKept_props chunks).1 l hl).1, ((combineKept_props chunks).1 l hl).2.1⟩)

lemma map_pystrip_fixed (L : List (List Char)) (h : ∀ l ∈ L, pystrip l = l) :
    L.map pystrip = L := by
  induction L with
  | nil => rfl
  | cons x xs ih =>
      rw [List.map_cons, h x (List.mem_cons_self x xs),
          ih (fun l hl => h l (List.mem_cons_of_mem x hl))]

/-- Idempotence of `combine_chunks`. -/
lemma combine_chunks_idem (chunks : List (List Char)) :
    combine_chunks [combine_chunks chunks] = combine_chunks chunks := by
  set K := firstKeep (linesOfChunks chunks) with hKdef
  have hprops := (combineKept_props chunks).1
  have hnodup := (combineKept_props chunks).2
  rw [combine_chunks_eq chunks]
  rw [combine_chunks_eq [joinNL K]]
  congr 1
  have hsplit : splitlines (joinNL K) = K :=
    splitlines_joinNL K (fun l hl => ⟨(hprops l hl).1, (hprops l hl).2.2⟩)
  have : linesOfChunks [joinNL K] = K := by
    show ((splitlines (joinNL K)).map pystrip).filter (fun l => decide (l ≠ [])) ++ linesOfChunks [] = K
    rw [hsplit, linesOfChunks, List.append_nil]
    rw [map_pystrip_fixed K (fun l hl => (hprops l hl).2.1)]
    apply List.filter_eq_self.mpr
    intro a ha
    simpa using (hprops a ha).1
  rw [this]
  exact firstKeep_eq_self K hnodup

/-- C6: `combine_chunks` is idempotent — running it on its own output is a
fixed point. -/
theorem c6_combine_chunks_idempotent (chunks : List (List Char)) :
    combine_chunks [combine_chunks chunks] = combine_chunks chunks :=
  combine_chunks_idem chunks

/-- C7: `combine_chunks` iterates chunks in order and non-blank lines within
each chunk in order, keeps only the first occurrence of each distinct
whitespace-trimmed line, drops later duplicates, and joins the survivors with
newlines; in particular `combine_chunks ["b\na", "a\nc"] = "b\na\nc"`. -/
theorem c7_combine_chunks_first_seen_order :
    (∀ chunks : List (List Char),
        combine_chunks chunks = joinNL (firstKeep (linesOfChunks chunks)))
      ∧ combine_chunks [toL "b\na", toL "a\nc"] = toL "b\na\nc" :=
  ⟨combine_chunks_eq, by decide⟩

/-! Regex search machinery.  `re.search` on the patterns used by the source
scans candidate start positions left to right and returns the earliest match;
we model it with `firstHit` over positions `0 .. length`. -/

def isSpTab (c : Char) : Bool := c == ' ' || c == '\t'

def charAt? (s : List Char) (p : ℕ) : Option Char := (s.drop p).head?

/-- A `(?m)^` anchor position: start of text or immediately after a `'\n'`. -/
def lineStartAt (s : List Char) (p : ℕ) : Bool :=
  p == 0 || charAt? s (p - 1) == some '\n'

/-- Earliest position in `[start, start + fuel)` satisfying `f` (left-to-right
scan, as `re.search` does). -/
def firstHitFrom (f : ℕ → Bool) : ℕ → ℕ → Option ℕ
  | _, 0 => none
  | start, k + 1 => if f start then some start else firstHitFrom f (start + 1) k

def firstHit (f : ℕ → Bool) (n : ℕ) : Option ℕ := firstHitFrom f 0 n

/-- Combine two optional match positions keeping the earlier one (the
`if earliest is None or pos < earliest` update of the source). -/
def minOpt : Option ℕ → Option ℕ → Option ℕ
  | none, b => b
  | some a, none => some a
  | some a, some b => some (min a b)

lemma firstHitFrom_ge (f : ℕ → Bool) :
    ∀ (k start p : ℕ), firstHitFrom f start k = some p → start ≤ p := by
  intro k
  induction k with
  | zero => intro start p h; simp [firstHitFrom] at h
  | succ k ih =>
      intro start p h
      rw [firstHitFrom] at h
      by_cases hf : f start
      · rw [if_pos hf] at h
        cases h
        exact le_rfl
      · rw [if_neg hf] at h
        exact le_trans (Nat.le_succ start) (ih (start + 1) p h)

lemma firstHitFrom_some_iff (f : ℕ → Bool) :
    ∀ (k start p : ℕ), firstHitFrom f start k = some p ↔
      (start ≤ p ∧ p < start + k ∧ f p = true ∧
       ∀ q, start ≤ q → q < p → f q = false) := by
  intro k
  induction k with
  | zero =>
      intro start p
      simp [firstHitFrom]
      omega
  | succ k ih =>
      intro start p
      rw [firstHitFrom]
      by_cases hf : f start
      · rw [if_pos hf]
        constructor
        · intro h
          cases h
          exact ⟨le_rfl, by omega, hf, fun q h1 h2 => absurd (lt_of_le_of_lt h1 h2) (lt_irrefl _)⟩
        · rintro ⟨h1, h2, h3, h4⟩
          by_cases hps : p = start
          · rw [hps]
          · have hfs : f start = false := h4 start le_rfl (by omega)
            rw [hfs] at hf
            simp at hf
      · rw [if_neg hf]
        rw [ih (start + 1) p]
        constructor
        · rintro ⟨h1, h2, h3, h4⟩
          refine ⟨by omega, by omega, h3, ?_⟩
          intro q hq1 hq2
          by_cases hqs : q = start
          · subst hqs; exact Bool.eq_false_iff.mpr hf
          · exact h4 q (by omega) hq2
        · rintro ⟨h1, h2, h3, h4⟩
          have hps : p ≠ start := by
            intro hps
            subst hps
            rw [h3] at hf
            exact hf rfl
          refine ⟨by omega, by omega, h3, fun q hq1 hq2 => h4 q (by omega) hq2⟩

lemma firstHitFrom_none_iff (f : ℕ → Bool) :
    ∀ (k start : ℕ), firstHitFrom f start k = none ↔
      ∀ q, start ≤ q → q < start + k → f q = false := by
  intro k
  induction k with
  | zero => intro start; simp [firstHitFrom]; omega
  | succ k ih =>
      intro start
      rw [firstHitFrom]
      by_cases hf : f start
      · rw [if_pos hf]
        simp only [reduceCtorEq, false_iff]
        intro h
        have hfs := h start le_rfl (by omega)
        rw [hfs] at hf
        simp at hf
      · rw [if_neg hf]
        rw [ih (start + 1)]
        constructor
        · intro h q hq1 hq2
          by_cases hqs : q = start
          · subst hqs; exact Bool.eq_false_iff.mpr hf
          · exact h q (by omega) (by omega)
        · intro h q hq1 hq2
          exact h q (by omega) (by omega)

lemma minOpt_firstHitFrom (f g : ℕ → Bool) :
    ∀ (k start : ℕ),
      minOpt (firstHitFrom f start k) (firstHitFrom g start k)
        = firstHitFrom (fun p => f p || g p) start k := by
  intro k
  induction k with
  | zero => intro start; rfl
  | succ k ih =>
      intro start
      by_cases hf : f start
      · by_cases hg : g start
        · rw [firstHitFrom, if_pos hf, firstHitFrom, if_pos hg,
              firstHitFrom, if_pos (show (f start || g start) = true by simp [hf])]
          simp [minOpt]
        · rw [firstHitFrom, if_pos hf, firstHitFrom, if_neg hg,
              firstHitFrom, if_pos (show (f start || g start) = true by simp [hf])]
          cases hcase : firstHitFrom g (start + 1) k with
          | none => rfl
          | some b =>
              have hb : start + 1 ≤ b := firstHitFrom_ge g k (start + 1) b hcase
              simp only [minOpt, Option.some.injEq]
              exact Nat.min_eq_left (by omega)
      · by_cases hg : g start
        · rw [firstHitFrom, if_neg hf, firstHitFrom, if_pos hg,
              firstHitFrom, if_pos (show (f start || g start) = true by simp [hg])]
          cases hcase : firstHitFrom f (start + 1) k with
          | none => rfl
          | some a =>
              have ha : start + 1 ≤ a := firstHitFrom_ge f k (start + 1) a hcase
              simp only [minOpt, Option.some.injEq]
              exact Nat.min_eq_right (by omega)
        · rw [firstHitFrom, if_neg hf, firstHitFrom, if_neg hg,
              firstHitFrom, if_neg (show ¬(f start || g start) = true by simp [hf, hg])]
          exact ih (start + 1)

lemma minOpt_firstHit (f g : ℕ → Bool) (n : ℕ) :
    minOpt (firstHit f n) (firstHit g n) = firstHit (fun p => f p || g p) n :=
  minOpt_firstHitFrom f g n 0

lemma firstHit_false (n : ℕ) : firstHit (fun _ => false) n = none := by
  rw [firstHit]
  rw [firstHitFrom_none_iff]
  intro q _ _
  rfl

lemma foldl_minOpt_firstHit {α : Type} (F : α → ℕ → Bool) (n : ℕ) :
    ∀ (M : List α) (g : ℕ → Bool),
      M.foldl (fun acc m => minOpt acc (firstHit (F m) n)) (firstHit g n)
        = firstHit (fun p => g p || M.any (fun m => F m p)) n := by
  intro M
  induction M with
  | nil =>
      intro g
      simp only [List.foldl_nil, List.any_nil]
      congr 1
      funext p
      simp
  | cons m M' ih =>
      intro g
      rw [List.foldl_cons, minOpt_firstHit, ih]
      congr 1
      funext p
      simp [Bool.or_assoc]

/-- Python `lstrip('\n\r')`. -/
def lstripNR (s : List Char) : List Char :=
  s.dropWhile (fun c => c == '\n' || c == '\r')

/-- Python `rstrip('\n\r ')` (note: tab is not in the stripped set). -/
def rstripNRS (s : List Char) : List Char :=
  (s.reverse.dropWhile (fun c => c == '\n' || c == '\r' || c == ' ')).reverse

/-- ASCII digit (`\d` of the source's patterns, ASCII range). -/
def isDig (c : Char) : Bool := decide (48 ≤ c.toNat) && decide (c.toNat ≤ 57)

/-- ASCII word character (`\w` for the `\b` boundary, ASCII range). -/
def isWordChar (c : Char) : Bool := c.isAlpha || isDig c || c == '_'

/-- Match of `(?m)^[ \t]*1[\.)]\s*` starting at position `p`: `p` is a line
start, then optional spaces/tabs, then `1` and `.` or `)` (the trailing `\s*`
matches the empty string, so it imposes nothing). -/
def matchP1LineStart (s : List Char) (p : ℕ) : Bool :=
  lineStartAt s p &&
    (match (s.drop p).dropWhile isSpTab with
     | '1' :: sep :: _ => sep == '.' || sep == ')'
     | _ => false)

/-- Match of `\b1[\.)]\s+` starting at position `p` (the match start is the
`1`, with a word boundary before it). -/
def matchP1Bound (s : List Char) (p : ℕ) : Bool :=
  (p == 0 ||
    (match charAt? s (p - 1) with
     | some c => !isWordChar c
     | none => false)) &&
    (match s.drop p with
     | '1' :: sep :: w :: _ => (sep == '.' || sep == ')') && pySpace w
     | _ => false)

/-- In-text occurrence of `1.` or `1)` followed by whitespace at position `p`,
with no word-boundary requirement (the claim's reading of the fallback). -/
def plainOneAt (s : List Char) (p : ℕ) : Bool :=
  match s.drop p with
  | '1' :: sep :: w :: _ => (sep == '.' || sep == ')') && pySpace w
  | _ => false

/-- `extract_from_first_numbered` (`src/n.py` lines 246-258): return the
substring from the first `(?m)^[ \t]*1[\.)]\s*` match (with `lstrip('\n\r')`),
else from the first `\b1[\.)]\s+` match, else the text unchanged. -/
def extract_from_first_numbered (s : List Char) : List Char :=
  if s = [] then s
  else
    match firstHit (matchP1LineStart s) (s.length + 1) with
    | some p => lstripNR (s.drop p)
    | none =>
        match firstHit (matchP1Bound s) (s.length + 1) with
        | some p => lstripNR (s.drop p)
        | none => s

/-- Modelled from the claim's words for the fallback stage of
`extract_from_first_numbered`: "the first in-text occurrence of `1.` or `1)`
followed by whitespace", with no word-boundary condition.  Used to compare the
claim against the source's behaviour. -/
def extractSpecClaim (s : List Char) : List Char :=
  match firstHit (matchP1LineStart s) (s.length + 1) with
  | some p => lstripNR (s.drop p)
  | none =>
      match firstHit (plainOneAt s) (s.length + 1) with
      | some p => lstripNR (s.drop p)
      | none => s

/-- The mojibake marker literal of `src/n.py` line 267 (first of the two
non-ASCII markers, the bytes of the file decoded as UTF-8). -/
def markerCN1 : List Char :=
  [Char.ofNat 0xe7, Char.ofNat 0xad, Char.ofNat 0x201d,
   Char.ofNat 0xe6, Char.ofNat 0xa1, Char.ofNat 0x2c6]

/-- The second non-ASCII marker literal of `src/n.py` line 267. -/
def markerCN2 : List Char :=
  [Char.ofNat 0xe8, Char.ofNat 0xa7, Char.ofNat 0xa3,
   Char.ofNat 0xe7, Char.ofNat 0xad, Char.ofNat 0x201d]

/-- The `end_markers` literals with their case-insensitivity flag (`(?i)` on
the four ASCII ones, none on the two non-ASCII ones). -/
def markerLits : List (List Char × Bool) :=
  [(toL "Answer", true), (toL "Solution", true), (toL "Explanation", true),
   (toL "Correct Answer", true), (markerCN1, false), (markerCN2, false)]

/-- Consume a literal (case-insensitively when `ci`), returning the rest. -/
def dropLit (ci : Bool) : List Char → List Char → Option (List Char)
  | [], rest => some rest
  | _ :: _, [] => none
  | l :: ls, r :: rs =>
      if (if ci then l.toLower == r.toLower else l == r) then dropLit ci ls rs
      else none

/-- Match of `(?m)^[ \t]*LIT[:\s]` at position `p`. -/
def markerAt (lit : List Char) (ci : Bool) (s : List Char) (p : ℕ) : Bool :=
  lineStartAt s p &&
    (match dropLit ci lit ((s.drop p).dropWhile isSpTab) with
     | some (c :: _) => c == ':' || pySpace c
     | _ => false)

def digitVal (c : Char) : ℕ := c.toNat - 48

/-- Value of a decimal digit string (most significant digit first). -/
def numVal (ds : List Char) : ℕ := ds.foldl (fun a c => 10 * a + digitVal c) 0

/-- The digit-string shape accepted by the source's `(?:[2-9]\d*|[1-9]\d{2,})`
when applied to a maximal digit run: first digit `2`-`9`, or first digit
`1`-`9` with at least three digits in total. -/
def codeNumOK (ds : List Char) : Bool :=
  match ds with
  | [] => false
  | c :: _ =>
      (decide (50 ≤ c.toNat) && decide (c.toNat ≤ 57)) ||
      (decide (49 ≤ c.toNat) && decide (c.toNat ≤ 57) && decide (3 ≤ ds.length))

/-- Modelled from the claim's words: a digit string denoting an integer
`n ≥ 2` (all digits, no leading zero, value at least 2). -/
def specNumClaim (ds : List Char) : Bool :=
  match ds with
  | [] => false
  | c :: _ => ds.all isDig && decide (1 ≤ digitVal c) && decide (2 ≤ numVal ds)

/-- The amended enumerated-item condition: an integer `n ≥ 2` other than
`10`-`19`. -/
def specNumAmended (ds : List Char) : Bool :=
  specNumClaim ds && !(decide (10 ≤ numVal ds) && decide (numVal ds ≤ 19))

/-- The `[\.)]\s+` tail after the digit run. -/
def enumTail : List Char → Bool
  | c :: d :: _ => (c == '.' || c == ')') && pySpace d
  | _ => false

/-- Match of a line-start enumerated item at position `p`, with the digit-run
condition `numOK`: line start, optional spaces/tabs, a maximal digit run
satisfying `numOK`, then `.` or `)` and a whitespace character. -/
def matchEnumWith (numOK : List Char → Bool) (s : List Char) (p : ℕ) : Bool :=
  lineStartAt s p &&
    (let rest := (s.drop p).dropWhile isSpTab
     let ds := rest.takeWhile isDig
     numOK ds && enumTail (rest.drop ds.length))

/-- `trim_to_question_end` (`src/n.py` lines 261-285): the earliest match
among the six `end_markers` patterns is computed first, then compared with the
earliest `next_question` match; the text is cut before the earliest position
and right-stripped of `'\n'`, `'\r'`, `' '`; unchanged when nothing matches. -/
def trim_to_question_end (s : List Char) : List Char :=
  if s = [] then s
  else
    match minOpt
        (markerLits.foldl
          (fun acc lp => minOpt acc (firstHit (markerAt lp.1 lp.2 s) (s.length + 1))) none)
        (firstHit (matchEnumWith codeNumOK s) (s.length + 1)) with
    | some p => rstripNRS (s.take p)
    | none => s

/-- A cut position per the spec's words: an answer/solution/explanation marker
line or an enumerated-item line start whose digit run satisfies `numOK`. -/
def cutAt (numOK : List Char → Bool) (s : List Char) (p : ℕ) : Bool :=
  markerLits.any (fun lp => markerAt lp.1 lp.2 s p) || matchEnumWith numOK s p

/-- Modelled from the spec's words: truncate immediately before the earliest
cut position (trailing `'\n'`, `'\r'`, `' '` stripped), unchanged otherwise. -/
def trimSpec (numOK : List Char → Bool) (s : List Char) : List Char :=
  match firstHit (cutAt numOK s) (s.length + 1) with
  | some p => rstripNRS (s.take p)
  | none => s

lemma foldlDigits_ge (t : List Char) :
    ∀ a : ℕ, a * 10 ^ t.length ≤ t.foldl (fun x c => 10 * x + digitVal c) a := by
  induction t with
  | nil => intro a; simp
  | cons c t ih =>
      intro a
      rw [List.foldl_cons]
      calc a * 10 ^ (c :: t).length = (10 * a) * 10 ^ t.length := by
            rw [List.length_cons, pow_succ]; ring
        _ ≤ (10 * a + digitVal c) * 10 ^ t.length :=
            Nat.mul_le_mul_right _ (by omega)
        _ ≤ _ := ih _

lemma isDig_bounds (c : Char) (h : isDig c = true) :
    48 ≤ c.toNat ∧ c.toNat ≤ 57 := by
  simp [isDig] at h
  exact h

lemma numVal_single (c : Char) : numVal [c] = digitVal c := by
  show 10 * 0 + digitVal c = digitVal c
  omega

lemma numVal_pair (c d : Char) : numVal [c, d] = 10 * digitVal c + digitVal d := by
  show 10 * (10 * 0 + digitVal c) + digitVal d = 10 * digitVal c + digitVal d
  omega

lemma numVal_ge_100 (c : Char) (t : List Char) (hc : 1 ≤ digitVal c)
    (hlen : 2 ≤ t.length) : 100 ≤ numVal (c :: t) := by
  have h1 : digitVal c * 10 ^ t.length ≤ numVal (c :: t) := by
    unfold numVal
    rw [List.foldl_cons]
    have := foldlDigits_ge t (10 * 0 + digitVal c)
    simpa using this
  have h2 : (100 : ℕ) ≤ 10 ^ t.length := by
    calc (100 : ℕ) = 10 ^ 2 := by norm_num
      _ ≤ 10 ^ t.length := Nat.pow_le_pow_right (by norm_num) hlen
  calc (100 : ℕ) ≤ 10 ^ t.length := h2
    _ ≤ digitVal c * 10 ^ t.length := by
        calc 10 ^ t.length = 1 * 10 ^ t.length := (one_mul _).symm
          _ ≤ digitVal c * 10 ^ t.length := Nat.mul_le_mul_right _ hc
    _ ≤ numVal (c :: t) := h1

lemma codeNumOK_cons_iff (c : Char) (t : List Char) :
    codeNumOK (c :: t) = true ↔
      ((50 ≤ c.toNat ∧ c.toNat ≤ 57) ∨
       ((49 ≤ c.toNat ∧ c.toNat ≤ 57) ∧ 3 ≤ (c :: t).length)) := by
  show ((decide (50 ≤ c.toNat) && decide (c.toNat ≤ 57)) ||
      (decide (49 ≤ c.toNat) && decide (c.toNat ≤ 57) && decide (3 ≤ (c :: t).length)))
        = true ↔ _
  simp only [Bool.or_eq_true, Bool.and_eq_true, decide_eq_true_eq, and_assoc]

lemma specNumAmended_cons_iff (c : Char) (t : List Char) (h : (c :: t).all isDig = true) :
    specNumAmended (c :: t) = true ↔
      ((1 ≤ digitVal c ∧ 2 ≤ numVal (c :: t)) ∧
       ¬(10 ≤ numVal (c :: t) ∧ numVal (c :: t) ≤ 19)) := by
  show (((c :: t).all isDig && decide (1 ≤ digitVal c) && decide (2 ≤ numVal (c :: t))) &&
      !(decide (10 ≤ numVal (c :: t)) && decide (numVal (c :: t) ≤ 19))) = true ↔ _
  rw [h]
  simp only [Bool.true_and, ← Bool.decide_and, ← decide_not, decide_eq_true_eq]

/-- On a run of digits, the source's `(?:[2-9]\d*|[1-9]\d{2,})` shape accepts
exactly the numerals of value at least 2 other than `10`-`19`. -/
lemma codeNumOK_eq_amended (ds : List Char) (h : ds.all isDig = true) :
    codeNumOK ds = specNumAmended ds := by
  cases ds with
  | nil => rfl
  | cons c t =>
      have hc := isDig_bounds c (List.all_eq_true.mp h c (List.mem_cons_self _ _))
      rw [Bool.eq_iff_iff, codeNumOK_cons_iff, specNumAmended_cons_iff c t h]
      cases t with
      | nil =>
          rw [numVal_single]
          unfold digitVal
          simp only [List.length_cons, List.length_nil]
          omega
      | cons d t' =>
          have hd := isDig_bounds d
            (List.all_eq_true.mp h d (List.mem_cons_of_mem _ (List.mem_cons_self _ _)))
          cases t' with
          | nil =>
              rw [numVal_pair]
              unfold digitVal
              simp only [List.length_cons, List.length_nil]
              omega
          | cons e t'' =>
              unfold digitVal
              simp only [List.length_cons]
              by_cases h1 : 1 ≤ c.toNat - 48
              · have h100 : 100 ≤ numVal (c :: d :: e :: t'') :=
                  numVal_ge_100 c _ (by unfold digitVal; omega) (by simp)
                omega
              · omega

lemma matchEnum_code_eq (s : List Char) (p : ℕ) :
    matchEnumWith codeNumOK s p = matchEnumWith specNumAmended s p := by
  simp only [matchEnumWith]
  have hall : (((s.drop p).dropWhile isSpTab).takeWhile isDig).all isDig = true := by
    rw [List.all_eq_true]
    intro x hx
    exact List.mem_takeWhile_imp hx
  rw [codeNumOK_eq_amended _ hall]

/-- The sequential minimum over the source's per-pattern searches equals the
single earliest cut position of the spec formulation. -/
lemma trim_eq_trimSpec (s : List Char) :
    trim_to_question_end s = trimSpec specNumAmended s := by
  by_cases hs : s = []
  · subst hs; decide
  · unfold trim_to_question_end
    rw [if_neg hs]
    have h1 : markerLits.foldl
        (fun acc lp => minOpt acc (firstHit (markerAt lp.1 lp.2 s) (s.length + 1))) none
        = firstHit (fun p => markerLits.any (fun lp => markerAt lp.1 lp.2 s p))
            (s.length + 1) := by
      have h0 := foldl_minOpt_firstHit (fun (lp : List Char × Bool) p => markerAt lp.1 lp.2 s p)
        (s.length + 1) markerLits (fun _ => false)
      rw [firstHit_false] at h0
      rw [h0]
      rfl
    rw [h1, minOpt_firstHit]
    have h2 : (fun p => (markerLits.any fun lp => markerAt lp.1 lp.2 s p)
          || matchEnumWith codeNumOK s p)
        = cutAt specNumAmended s := by
      funext p
      rw [cutAt, matchEnum_code_eq]
    rw [h2]
    rfl

/-- C2: `trim_to_question_end` truncates before the earliest occurrence among
marker lines and line-start enumerated items numbered 2 or higher — as stated
this is refuted on `"1. Q?\n10. x"` (items 10-19 are not cut points); amended
to exclude 10-19 it holds, and the claim's example is as stated. -/
theorem c2_trim_amended :
    (∀ s : List Char, trim_to_question_end s = trimSpec specNumAmended s) ∧
    trim_to_question_end (toL "1. Q?\nAnswer: 42\n2. Next") = toL "1. Q?" :=
  ⟨trim_eq_trimSpec, by decide⟩

/-- C2 counterexample: on `"1. Q?\n10. x"` the code returns the text
unchanged, while the claim (every enumerated item `n ≥ 2` is a cut point)
demands `"1. Q?"`. -/
theorem c2_trim_counterexample :
    trim_to_question_end (toL "1. Q?\n10. x") = toL "1. Q?\n10. x" ∧
    trimSpec specNumClaim (toL "1. Q?\n10. x") = toL "1. Q?" ∧
    toL "1. Q?\n10. x" ≠ toL "1. Q?" :=
  ⟨by decide, by decide, by decide⟩

lemma firstHit_some_iff_least (f : ℕ → Bool) (n p : ℕ)
    (hv : ∀ q, n ≤ q → f q = false) :
    firstHit f n = some p ↔ IsLeast {q | f q = true} p := by
  rw [firstHit, firstHitFrom_some_iff]
  constructor
  · rintro ⟨-, _, h3, h4⟩
    refine ⟨h3, fun q hq => ?_⟩
    rw [Set.mem_setOf_eq] at hq
    by_contra hlt
    push_neg at hlt
    have := h4 q (Nat.zero_le q) hlt
    rw [this] at hq
    simp at hq
  · rintro ⟨hmem, hlb⟩
    rw [Set.mem_setOf_eq] at hmem
    refine ⟨Nat.zero_le p, ?_, hmem, ?_⟩
    · by_contra hge
      push_neg at hge
      have hfp : f p = false := hv p (by omega)
      rw [hfp] at hmem
      simp at hmem
    · intro q _ hql
      cases hfq : f q with
      | false => rfl
      | true => exact absurd (hlb hfq) (by omega)

lemma firstHit_none_iff_all (f : ℕ → Bool) (n : ℕ)
    (hv : ∀ q, n ≤ q → f q = false) :
    firstHit f n = none ↔ ∀ q, f q = false := by
  rw [firstHit, firstHitFrom_none_iff]
  constructor
  · intro h q
    by_cases hq : q < n
    · exact h q (Nat.zero_le q) (by omega)
    · exact hv q (by omega)
  · intro h q _ _
    exact h q

lemma matchP1LineStart_vanish (s : List Char) :
    ∀ q, s.length + 1 ≤ q → matchP1LineStart s q = false := by
  intro q hq
  unfold matchP1LineStart
  rw [List.drop_eq_nil_of_le (by omega)]
  simp

lemma matchP1Bound_vanish (s : List Char) :
    ∀ q, s.length + 1 ≤ q → matchP1Bound s q = false := by
  intro q hq
  unfold matchP1Bound
  rw [List.drop_eq_nil_of_le (by omega)]
  simp

lemma matchP1LineStart_nil (p : ℕ) : matchP1LineStart [] p = false := by
  unfold matchP1LineStart
  rw [List.drop_nil]
  simp

lemma matchP1Bound_nil (p : ℕ) : matchP1Bound [] p = false := by
  unfold matchP1Bound
  rw [List.drop_nil]
  simp

/-- C8 (amended): `extract_from_first_numbered` returns the substring from the
least line-start `1.`/`1)` marker position (leading `'\n'`/`'\r'` stripped);
with no line-start match it falls back to the least in-text occurrence of `1.`
or `1)` that sits at a word boundary and is followed by whitespace; with
neither it returns the input unchanged; and the claim's example holds. -/
theorem c8_extract_first_numbered :
    (∀ (s : List Char) (p : ℕ), IsLeast {q | matchP1LineStart s q = true} p →
        extract_from_first_numbered s = lstripNR (s.drop p)) ∧
    (∀ (s : List Char) (p : ℕ), (∀ q, matchP1LineStart s q = false) →
        IsLeast {q | matchP1Bound s q = true} p →
        extract_from_first_numbered s = lstripNR (s.drop p)) ∧
    (∀ s : List Char, (∀ q, matchP1LineStart s q = false) →
        (∀ q, matchP1Bound s q = false) → extract_from_first_numbered s = s) ∧
    extract_from_first_numbered (toL "intro\n1. First\n2. Second")
      = toL "1. First\n2. Second" := by
  refine ⟨?_, ?_, ?_, by decide⟩
  · intro s p hleast
    have hs : s ≠ [] := by
      intro h
      subst h
      have hmem := hleast.1
      rw [Set.mem_setOf_eq, matchP1LineStart_nil p] at hmem
      simp at hmem
    unfold extract_from_first_numbered
    rw [if_neg hs,
        (firstHit_some_iff_least _ _ p (matchP1LineStart_vanish s)).mpr hleast]
  · intro s p hnone hleast
    have hs : s ≠ [] := by
      intro h
      subst h
      have hmem := hleast.1
      rw [Set.mem_setOf_eq, matchP1Bound_nil p] at hmem
      simp at hmem
    unfold extract_from_first_numbered
    rw [if_neg hs,
        (firstHit_none_iff_all _ _ (matchP1LineStart_vanish s)).mpr hnone,
        (firstHit_some_iff_least _ _ p (matchP1Bound_vanish s)).mpr hleast]
  · intro s h1 h2
    by_cases hs : s = []
    · subst hs; rfl
    · unfold extract_from_first_numbered
      rw [if_neg hs,
          (firstHit_none_iff_all _ _ (matchP1LineStart_vanish s)).mpr h1,
          (firstHit_none_iff_all _ _ (matchP1Bound_vanish s)).mpr h2]

/-- Witness for C8: on the claim's example the least line-start match is at
position 6 and the function returns the suffix from there. -/
theorem c8_extract_witness :
    extract_from_first_numbered (toL "intro\n1. First\n2. Second")
      = lstripNR ((toL "intro\n1. First\n2. Second").drop 6) :=
  c8_extract_first_numbered.1 (toL "intro\n1. First\n2. Second") 6
    ⟨by decide, fun q hq => by
      by_contra hcon
      have hlt : q < 6 := Nat.lt_of_not_le hcon
      interval_cases q <;> exact absurd hq (by decide)⟩

/-- C8 counterexample: on `"x21. y"` the claim's fallback ("first in-text
occurrence of `1.` followed by whitespace", with no word-boundary condition)
returns `"1. y"`, while the source's `\b1[\.)]\s+` does not match after the
word character `2` and the function returns the input unchanged. -/
theorem c8_extract_counterexample :
    extract_from_first_numbered (toL "x21. y") = toL "x21. y" ∧
    extractSpecClaim (toL "x21. y") = toL "1. y" ∧
    toL "x21. y" ≠ toL "1. y" :=
  ⟨by decide, by decide, by decide⟩

/-! Image pipeline: frames, duplicate detection, capture loop, stitching
(`src/n.py` lines 131-229). -/

/-- A raster image: dimensions and a pixel-sample accessor (row-major samples
standing for the byte content `tobytes` exposes). -/
structure Img where
  width : ℕ
  height : ℕ
  px : ℕ → ℕ → ℕ

/-- PIL `crop` with box `(left, upper, right, lower)`. -/
def Img.crop (im : Img) (left upper right lower : ℕ) : Img :=
  { width := right - left, height := lower - upper,
    px := fun x y => im.px (left + x) (upper + y) }

/-- PIL `tobytes`: the samples in row-major order. -/
def Img.tobytes (im : Img) : List ℕ :=
  ((List.range im.height).map
    (fun y => (List.range im.width).map (fun x => im.px x y))).flatten

/-- The previous frame's bottom strip (`prev_img.crop((0, h1-crop_h, w, h1))`
with `w = min(prev.width, cur.width, 400)` and `crop_h = min(300, h1 // 2)`). -/
def prevBottomStrip (prev cur : Img) : Img :=
  prev.crop 0 (prev.height - min 300 (prev.height / 2))
    (min (min prev.width cur.width) 400) prev.height

/-- The new frame's top strip (`pil_img.crop((0, 0, w, min(crop_h, h2)))`). -/
def currTopStrip (prev cur : Img) : Img :=
  cur.crop 0 0 (min (min prev.width cur.width) 400)
    (min (min 300 (prev.height / 2)) cur.height)

/-- Number of positions at which the two byte strings agree
(`sum(a == b for a, b in zip(...))`). -/
def countEq (a b : List ℕ) : ℕ := (a.zip b).countP (fun p => p.1 == p.2)

/-- The duplicate test of the capture loop (`src/n.py` lines 160-187): strips
of equal size whose byte-identical fraction exceeds 0.95; on a zero-length
strip the division raises and the surrounding `except` leaves the frame
non-duplicate. -/
def dupCheck (prev cur : Img) : Bool :=
  if ((prevBottomStrip prev cur).width, (prevBottomStrip prev cur).height)
      = ((currTopStrip prev cur).width, (currTopStrip prev cur).height) then
    if (prevBottomStrip prev cur).tobytes.length = 0 then false
    else decide (20 * countEq (prevBottomStrip prev cur).tobytes
        (currTopStrip prev cur).tobytes
      > 19 * (prevBottomStrip prev cur).tobytes.length)
  else false

/-- The capture loop of `capture_and_stitch_left` (`src/n.py` lines 151-203):
`shots i` is the screenshot of iteration `i` (`none` = the call raised),
`pd i` tells whether the page-down key press of iteration `i` succeeded. -/
def captureFrom (shots : ℕ → Option Img) (pd : ℕ → Bool) :
    ℕ → ℕ → List Img → ℕ → List Img
  | _, 0, imgs, _ => imgs
  | i, fuel + 1, imgs, consec =>
      match shots i with
      | none => imgs
      | some img =>
          let isDup := match imgs.getLast? with
            | some prev => dupCheck prev img
            | none => false
          if isDup then
            if 2 ≤ consec + 1 then imgs
            else if pd i then captureFrom shots pd (i + 1) fuel imgs (consec + 1)
            else imgs
          else
            if pd i then captureFrom shots pd (i + 1) fuel (imgs ++ [img]) 0
            else imgs ++ [img]

/-- Pixel accessor of the stitched canvas: the unique frame covering row `y`
(pastes at cumulative offsets never overlap), white (255) elsewhere. -/
def stitchPx : List Img → ℕ → ℕ → ℕ
  | [], _, _ => 255
  | im :: rest, x, y =>
      if y < im.height then (if x < im.width then im.px x y else 255)
      else stitchPx rest x (y - im.height)

/-- The stitching step (`src/n.py` lines 211-219): canvas of width
`max(widths)`, height `sum(heights)`, frames pasted at `(0, y)` cumulatively. -/
def stitch (imgs : List Img) : Img :=
  { width := (imgs.map Img.width).foldl max 0,
    height := (imgs.map Img.height).sum,
    px := stitchPx imgs }

lemma foldl_max_ge_init : ∀ (l : List ℕ) (a : ℕ), a ≤ l.foldl max a := by
  intro l
  induction l with
  | nil => intro a; exact le_rfl
  | cons x t ih =>
      intro a
      exact le_trans (Nat.le_max_left a x) (ih (max a x))

lemma foldl_max_ge_mem : ∀ (l : List ℕ) (a x : ℕ), x ∈ l → x ≤ l.foldl max a := by
  intro l
  induction l with
  | nil => intro a x hx; simp at hx
  | cons y t ih =>
      intro a x hx
      rcases List.mem_cons.mp hx with h1 | h2
      · subst h1
        exact le_trans (Nat.le_max_right a x) (foldl_max_ge_init t (max a x))
      · exact ih (max a y) x h2

lemma foldl_max_mem : ∀ (l : List ℕ) (a : ℕ), l.foldl max a = a ∨ l.foldl max a ∈ l := by
  intro l
  induction l with
  | nil => intro a; left; rfl
  | cons x t ih =>
      intro a
      rcases ih (max a x) with h | h
      · rw [List.foldl_cons, h]
        rcases max_choice a x with hm | hm
        · left; rw [hm]
        · right; rw [hm]; exact List.mem_cons_self x t
      · right
        rw [List.foldl_cons]
        exact List.mem_cons_of_mem x h

lemma stitchPx_at : ∀ (imgs : List Img) (i : ℕ) (h : i < imgs.length) (x dy : ℕ),
    x < (imgs.get ⟨i, h⟩).width → dy < (imgs.get ⟨i, h⟩).height →
    stitchPx imgs x (((imgs.take i).map Img.height).sum + dy)
      = (imgs.get ⟨i, h⟩).px x dy := by
  intro imgs
  induction imgs with
  | nil => intro i h; simp at h
  | cons im rest ih =>
      intro i h x dy hx hdy
      cases i with
      | zero =>
          simp only [List.take_zero, List.map_nil, List.sum_nil, Nat.zero_add]
          simp only [List.get] at hx hdy ⊢
          rw [stitchPx, if_pos hdy, if_pos hx]
      | succ j =>
          simp only [List.take_succ_cons, List.map_cons, List.sum_cons]
          simp only [List.get] at hx hdy ⊢
          rw [stitchPx]
          have hj : j < rest.length := by
            simp at h
            omega
          rw [if_neg (by omega)]
          have harith : im.height + ((rest.take j).map Img.height).sum + dy - im.height
              = ((rest.take j).map Img.height).sum + dy := by omega
          rw [harith]
          exact ih j hj x dy hx hdy

/-- C9: stitched canvas geometry — height is the sum of the frame heights,
width is the maximum frame width, and every frame is pasted left-aligned at
the cumulative y-offset of the frames before it, in order. -/
theorem c9_stitch_geometry (imgs : List Img) (hne : imgs ≠ []) :
    (stitch imgs).height = (imgs.map Img.height).sum ∧
    ((stitch imgs).width ∈ imgs.map Img.width ∧
      ∀ w ∈ imgs.map Img.width, w ≤ (stitch imgs).width) ∧
    ∀ (i : ℕ) (h : i < imgs.length) (x dy : ℕ),
      x < (imgs.get ⟨i, h⟩).width → dy < (imgs.get ⟨i, h⟩).height →
      (stitch imgs).px x (((imgs.take i).map Img.height).sum + dy)
        = (imgs.get ⟨i, h⟩).px x dy := by
  refine ⟨rfl, ⟨?_, fun w hw => foldl_max_ge_mem _ 0 w hw⟩,
    fun i h x dy hx hdy => stitchPx_at imgs i h x dy hx hdy⟩
  rcases foldl_max_mem (imgs.map Img.width) 0 with h0 | hmem
  · show (imgs.map Img.width).foldl max 0 ∈ imgs.map Img.width
    rw [h0]
    obtain ⟨im, rest, himgs⟩ : ∃ im rest, imgs = im :: rest := by
      cases imgs with
      | nil => exact absurd rfl hne
      | cons im rest => exact ⟨im, rest, rfl⟩
    have hmem0 : im.width ∈ imgs.map Img.width := by
      rw [himgs]; simp
    have hle : im.width ≤ (imgs.map Img.width).foldl max 0 :=
      foldl_max_ge_mem _ 0 _ hmem0
    rw [h0] at hle
    have hz : im.width = 0 := Nat.le_zero.mp hle
    rw [← hz]
    exact hmem0
  · exact hmem

/-- Witness for C9 on a single 2x3 frame. -/
theorem c9_stitch_witness :
    (stitch [⟨2, 3, fun _ _ => 7⟩]).height = 3 ∧
    (stitch [⟨2, 3, fun _ _ => 7⟩]).width = 2 := by
  have h := c9_stitch_geometry [⟨2, 3, fun _ _ => 7⟩] (by simp)
  refine ⟨by simpa using h.1, ?_⟩
  have h2 := h.2.1.1
  simpa using h2

lemma dupCheck_iff (prev cur : Img) :
    dupCheck prev cur = true ↔
      ((prevBottomStrip prev cur).width = (currTopStrip prev cur).width ∧
       (prevBottomStrip prev cur).height = (currTopStrip prev cur).height ∧
       (95 : ℚ) / 100 <
         (countEq (prevBottomStrip prev cur).tobytes (currTopStrip prev cur).tobytes : ℚ)
           / ((prevBottomStrip prev cur).tobytes.length : ℚ)) := by
  unfold dupCheck
  by_cases hsz : ((prevBottomStrip prev cur).width, (prevBottomStrip prev cur).height)
      = ((currTopStrip prev cur).width, (currTopStrip prev cur).height)
  · rw [if_pos hsz]
    obtain ⟨hw, hh⟩ := Prod.mk.injEq .. ▸ hsz
    by_cases hlen : (prevBottomStrip prev cur).tobytes.length = 0
    · rw [if_pos hlen]
      constructor
      · intro h; simp at h
      · rintro ⟨-, -, hfrac⟩
        rw [hlen] at hfrac
        norm_num at hfrac
    · rw [if_neg hlen]
      rw [decide_eq_true_eq]
      have hpos : (0 : ℚ) < ((prevBottomStrip prev cur).tobytes.length : ℚ) := by
        exact_mod_cast Nat.pos_of_ne_zero hlen
      constructor
      · intro h
        refine ⟨hw, hh, ?_⟩
        rw [div_lt_div_iff₀ (by norm_num) hpos]
        have harith : 95 * (prevBottomStrip prev cur).tobytes.length <
            countEq (prevBottomStrip prev cur).tobytes (currTopStrip prev cur).tobytes * 100 := by
          omega
        exact_mod_cast harith
      · rintro ⟨-, -, hfrac⟩
        rw [div_lt_div_iff₀ (by norm_num) hpos] at hfrac
        have harith : 95 * (prevBottomStrip prev cur).tobytes.length <
            countEq (prevBottomStrip prev cur).tobytes (currTopStrip prev cur).tobytes * 100 := by
          exact_mod_cast hfrac
        omega
  · rw [if_neg hsz]
    constructor
    · intro h; simp at h
    · rintro ⟨hw, hh, -⟩
      exact absurd (by rw [hw, hh]) hsz

lemma captureFrom_stop_on_second_dup (shots : ℕ → Option Img) (pd : ℕ → Bool)
    (i fuel consec : ℕ) (imgs : List Img) (prev img : Img)
    (hshot : shots i = some img) (hlast : imgs.getLast? = some prev)
    (hdup : dupCheck prev img = true) (hconsec : 2 ≤ consec + 1) :
    captureFrom shots pd i (fuel + 1) imgs consec = imgs := by
  simp only [captureFrom, hshot, hlast, hdup, if_true]
  rw [if_pos hconsec]

lemma captureFrom_skip_dup (shots : ℕ → Option Img) (pd : ℕ → Bool)
    (i fuel consec : ℕ) (imgs : List Img) (prev img : Img)
    (hshot : shots i = some img) (hlast : imgs.getLast? = some prev)
    (hdup : dupCheck prev img = true) (hconsec : consec + 1 < 2)
    (hpd : pd i = true) :
    captureFrom shots pd i (fuel + 1) imgs consec
      = captureFrom shots pd (i + 1) fuel imgs (consec + 1) := by
  simp only [captureFrom, hshot, hlast, hdup, if_true]
  rw [if_neg (by omega), if_pos hpd]

lemma captureFrom_append_nondup (shots : ℕ → Option Img) (pd : ℕ → Bool)
    (i fuel consec : ℕ) (imgs : List Img) (prev img : Img)
    (hshot : shots i = some img) (hlast : imgs.getLast? = some prev)
    (hdup : dupCheck prev img = false) (hpd : pd i = true) :
    captureFrom shots pd i (fuel + 1) imgs consec
      = captureFrom shots pd (i + 1) fuel (imgs ++ [img]) 0 := by
  simp only [captureFrom, hshot, hlast, hdup]
  rw [if_neg (by simp), if_pos hpd]

/-- C5: a frame is flagged duplicate exactly when the strips have equal size
and the byte-identical fraction exceeds 0.95 (unequal sizes never duplicate);
a duplicate is not appended and bumps the consecutive-duplicate counter, a
non-duplicate resets it and is appended, and two consecutive duplicates stop
the loop regardless of the remaining iteration budget. -/
theorem c5_duplicate_detection :
    (∀ prev cur : Img, dupCheck prev cur = true ↔
      ((prevBottomStrip prev cur).width = (currTopStrip prev cur).width ∧
       (prevBottomStrip prev cur).height = (currTopStrip prev cur).height ∧
       (95 : ℚ) / 100 <
         (countEq (prevBottomStrip prev cur).tobytes (currTopStrip prev cur).tobytes : ℚ)
           / ((prevBottomStrip prev cur).tobytes.length : ℚ))) ∧
    (∀ (shots : ℕ → Option Img) (pd : ℕ → Bool) (i fuel consec : ℕ)
        (imgs : List Img) (prev img : Img),
        shots i = some img → imgs.getLast? = some prev →
        (dupCheck prev img = true → 2 ≤ consec + 1 →
            captureFrom shots pd i (fuel + 1) imgs consec = imgs) ∧
        (dupCheck prev img = true → consec + 1 < 2 → pd i = true →
            captureFrom shots pd i (fuel + 1) imgs consec
              = captureFrom shots pd (i + 1) fuel imgs (consec + 1)) ∧
        (dupCheck prev img = false → pd i = true →
            captureFrom shots pd i (fuel + 1) imgs consec
              = captureFrom shots pd (i + 1) fuel (imgs ++ [img]) 0)) ∧
    (∀ (shots : ℕ → Option Img) (pd : ℕ → Bool) (i fuel : ℕ)
        (imgs : List Img) (prev img1 img2 : Img),
        2 ≤ fuel → shots i = some img1 → shots (i + 1) = some img2 →
        imgs.getLast? = some prev →
        dupCheck prev img1 = true → dupCheck prev img2 = true → pd i = true →
        captureFrom shots pd i fuel imgs 0 = imgs) := by
  refine ⟨dupCheck_iff, ?_, ?_⟩
  · intro shots pd i fuel consec imgs prev img hshot hlast
    exact ⟨captureFrom_stop_on_second_dup shots pd i fuel consec imgs prev img hshot hlast,
      captureFrom_skip_dup shots pd i fuel consec imgs prev img hshot hlast,
      captureFrom_append_nondup shots pd i fuel consec imgs prev img hshot hlast⟩
  · intro shots pd i fuel imgs prev img1 img2 hfuel hshot1 hshot2 hlast hdup1 hdup2 hpd
    obtain ⟨f, rfl⟩ : ∃ f, fuel = f + 2 := ⟨fuel - 2, by omega⟩
    have step1 : captureFrom shots pd i (f + 2) imgs 0
        = captureFrom shots pd (i + 1) (f + 1) imgs 1 :=
      captureFrom_skip_dup shots pd i (f + 1) 0 imgs prev img1 hshot1 hlast hdup1
        (by omega) hpd
    rw [step1]
    exact captureFrom_stop_on_second_dup shots pd (i + 1) f 1 imgs prev img2
      hshot2 hlast hdup2 (by omega)

/-- Witness for C5: a stream of frames identical to the last kept frame makes
the loop stop with the kept list unchanged, without consuming the full
iteration budget. -/
theorem c5_witness :
    captureFrom (fun _ => some (Img.mk 2 4 (fun _ _ => 0))) (fun _ => true) 0 3
      [Img.mk 2 4 (fun _ _ => 0)] 0 = [Img.mk 2 4 (fun _ _ => 0)] :=
  c5_duplicate_detection.2.2 (fun _ => some (Img.mk 2 4 (fun _ _ => 0))) (fun _ => true)
    0 3 [Img.mk 2 4 (fun _ _ => 0)] (Img.mk 2 4 (fun _ _ => 0))
    (Img.mk 2 4 (fun _ _ => 0)) (Img.mk 2 4 (fun _ _ => 0))
    (by omega) rfl rfl rfl (by decide) (by decide) rfl

/-! Orchestration state and the HTTP control plane (`src/n.py` lines 307-424
and 709-849).  Effects outside the shared `last_captured_text` slot (clipboard
copies, background typing threads, cursor signals, temp-file cleanup) either
swallow their errors or do not touch the shared state, and are represented by
the outcome labels below. -/

/-- The shared CaptureStore: the module-level `last_captured_text` slot. -/
structure ServerState where
  last_captured_text : List Char
deriving DecidableEq

/-- A parsed extractor JSON output; a missing or falsy field is `[]`. -/
structure AiOut where
  answer : List Char
  question : List Char
deriving DecidableEq

/-- Outcome of the `subprocess.run` call on `ai_pipeline.py` plus the JSON
parse of its stdout: the call raised (timeout), it ran but failed (non-zero
exit or empty stdout), its stdout was unparseable, or it produced fields. -/
inductive AiRun
  | raised
  | fail
  | badJson
  | ok (out : AiOut)
deriving DecidableEq

/-- The environment/configuration surrounding one request or capture: the
flag values, the behaviour of the external extractor and OCR on the image at
hand, whether file writes succeed, and the screenshot/scroll behaviour. -/
structure Env where
  use_ai : Bool
  allow_ocr : Bool
  auto_type_on_capture : Bool
  auto_answer : Bool
  scroll_capture : Bool
  ai_script_exists : Bool
  ai_run : AiRun
  ocr : Option (List Char)
  write_ok : Bool
  save_ok : Bool
  shots : ℕ → Option Img
  pagedown_ok : ℕ → Bool
  max_scrolls : ℕ

/-- Outcome of `json.loads` + `.get` on a `/send_text` body: `bad` covers a
decode error, unparseable JSON, or a non-object value (all land in the
`except` clause); `obj` carries the `text` and `mode` fields (`[]` for a
missing or empty `text`). -/
inductive SendTextParse
  | bad
  | obj (text : List Char) (mode : List Char)
deriving DecidableEq

/-- A POST request as the handler sees it. -/
structure PostReq where
  contentLength : ℕ
  sendTextParse : SendTextParse
  multipart : Bool
  multipartHasFile : Bool
deriving DecidableEq

/-- Result of one `do_POST` call: a response was sent, or the handler raised
an unhandled exception (no response), or an exception was swallowed by the
`finally` clause's `return` before any response was sent. -/
inductive HttpOut
  | response (status : ℕ) (body : List Char) (st : ServerState)
  | crash (st : ServerState)
  | noResponse (st : ServerState)
deriving DecidableEq

def HttpOut.status? : HttpOut → Option ℕ
  | .response s _ _ => some s
  | .crash _ => none
  | .noResponse _ => none

def HttpOut.stateOf : HttpOut → ServerState
  | .response _ _ st => st
  | .crash st => st
  | .noResponse st => st

/-- `capture_and_stitch_left` (`src/n.py` lines 131-229): run the capture
loop; with no kept frames return `None`, otherwise stitch and save (a failing
save returns `None`). -/
def capture_and_stitch_left (env : Env) : Option Img :=
  match captureFrom env.shots env.pagedown_ok 0 env.max_scrolls [] 0 with
  | [] => none
  | im :: rest => if env.save_ok then some (stitch (im :: rest)) else none

/-- The image-acquisition stage of `do_capture_and_store` (lines 326-341):
scroll capture, or a single screenshot saved to disk; `none` when no image
file results. -/
def captureImage (env : Env) : Option Img :=
  if env.scroll_capture then capture_and_stitch_left env
  else
    match env.shots 0 with
    | some img => if env.save_ok then some img else none
    | none => none

/-- The AI-extraction stage of `do_capture_and_store` (lines 350-374): any
exception is caught, so a raised call just leaves `combined` unset; with a
parsed output, `answer` is preferred only when `NEO_AUTO_ANSWER` is on. -/
def aiTextCapture (env : Env) : List Char :=
  if env.use_ai ∧ env.ai_script_exists then
    match env.ai_run with
    | .ok out =>
        if env.auto_answer ∧ out.answer ≠ [] then out.answer
        else if out.question ≠ [] then out.question
        else []
    | _ => []
  else []

/-- AI extraction followed by the OCR fallback (lines 376-382): OCR is
consulted only when the AI produced nothing and `NEO_ALLOW_OCR` is on; its
text is stripped, and an OCR exception leaves nothing. -/
def rawExtract (env : Env) : List Char :=
  if aiTextCapture env = [] ∧ env.allow_ocr then
    match env.ocr with
    | some u => pystrip u
    | none => []
  else aiTextCapture env

/-- Observable outcome of `do_capture_and_store`: text stored (plus the
success signal), failure signalled by `signal_failure()`, or an early `return`
with no signal at all. -/
inductive CapOutcome
  | stored
  | failSignaled
  | silentReturn
deriving DecidableEq

/-- The post-extraction heuristics of `do_capture_and_store` (lines 396-402):
each stage's output replaces the text only when non-empty and different. -/
def normalizeHeuristics (combined : List Char) : List Char :=
  let e := extract_from_first_numbered combined
  let c1 := if e ≠ [] ∧ e ≠ combined then e else combined
  let t := trim_to_question_end c1
  if t ≠ [] ∧ t ≠ c1 then t else c1

/-- `do_capture_and_store` (`src/n.py` lines 307-422): capture, extract,
normalize, store. -/
def do_capture_and_store (env : Env) (st : ServerState) : CapOutcome × ServerState :=
  match captureImage env with
  | none => (.silentReturn, st)
  | some _ =>
      if rawExtract env = [] then (.failSignaled, st)
      else
        if normalizeHeuristics (rawExtract env) = [] then (.failSignaled, st)
        else (.stored, ⟨normalizeHeuristics (rawExtract env)⟩)

/-- The `/send_image` extraction result (lines 803-814): unlike the hotkey
path, `answer` is preferred unconditionally, and no normalization heuristics
are applied. -/
def aiTextSendImage (env : Env) : List Char :=
  match env.ai_run with
  | .ok out =>
      if out.answer ≠ [] then out.answer
      else if out.question ≠ [] then out.question
      else []
  | _ => []

/-- Lines 815-837: OCR fallback, then store-and-200 on non-empty text or a
500 `no_text` response. -/
def sendImageAfterAi (env : Env) (st : ServerState) (aiText : List Char) : HttpOut :=
  let combined :=
    if aiText = [] ∧ env.allow_ocr then
      match env.ocr with
      | some u => pystrip u
      | none => []
    else aiText
  if combined ≠ [] then .response 200 (toL "ok") ⟨combined⟩
  else .response 500 (toL "no_text") st

/-- Lines 800-844: the `try`/`finally` around the image processing has no
`except`, and the `finally` block ends in `return`, so an exception raised by
`subprocess.run` (e.g. a timeout) is swallowed after the temp file is removed
and no response is ever sent. -/
def sendImageProcess (env : Env) (st : ServerState) : HttpOut :=
  if env.use_ai ∧ env.ai_script_exists then
    match env.ai_run with
    | .raised => .noResponse st
    | _ => sendImageAfterAi env st (aiTextSendImage env)
  else sendImageAfterAi env st []

/-- `SimpleImageHandler.do_POST` (`src/n.py` lines 709-849).  The
`elif self.path == '/send_image'` guards only the `Content-Length` read and
the empty-body 400; the block from line 768 on is dedented to method level,
so any path other than the two handled above falls into it — and for a path
other than `/send_image` the local variable `length` was never assigned, so
`self.rfile.read(length)` raises an unhandled `UnboundLocalError` (modelled as
`crash`).  The trailing 404 branch is unreachable. -/
def do_POST (env : Env) (path : List Char) (req : PostReq) (st : ServerState) : HttpOut :=
  if path = toL "/trigger_capture" then
    .response 200 (toL "ok") st
  else if path = toL "/send_text" then
    if req.contentLength = 0 then .response 400 [] st
    else
      match req.sendTextParse with
      | .bad => .response 500 [] st
      | .obj text _mode =>
          if text = [] then .response 400 [] st
          else .response 200 (toL "ok") ⟨text⟩
  else
    if path = toL "/send_image" ∧ req.contentLength = 0 then .response 400 [] st
    else if path ≠ toL "/send_image" then .crash st
    else
      if (if req.multipart then req.multipartHasFile ∧ env.write_ok else env.write_ok) then
        sendImageProcess env st
      else .response 500 (toL "failed") st

/-- A concrete environment: extractor returns only the question field of the
claim C1 scenario, auto-answer and auto-type off, OCR off, screenshots fail. -/
def env0 : Env :=
  { use_ai := true, allow_ocr := false, auto_type_on_capture := false,
    auto_answer := false, scroll_capture := true, ai_script_exists := true,
    ai_run := .ok ⟨[], toL "1. What is 2+2?\nAnswer: 4"⟩, ocr := none,
    write_ok := true, save_ok := true, shots := fun _ => none,
    pagedown_ok := fun _ => true, max_scrolls := 3 }

/-- A raw-bytes image-upload request with a non-empty body. -/
def req1 : PostReq :=
  { contentLength := 100, sendTextParse := .bad, multipart := false,
    multipartHasFile := false }

def st0 : ServerState := ⟨[]⟩

/-- C1 (amended): when the extractor returns only a non-empty `question`
field, `POST /send_image` (raw bytes, non-empty body, successful file write)
responds 200 `ok` and stores the extractor's question string unchanged — the
normalization heuristics are not applied on this path. -/
theorem c1_send_image_stores_raw (q : List Char) (env : Env) (req : PostReq)
    (st : ServerState)
    (hai : env.use_ai = true) (hscript : env.ai_script_exists = true)
    (hrun : env.ai_run = .ok ⟨[], q⟩) (hq : q ≠ [])
    (hwrite : env.write_ok = true) (hmp : req.multipart = false)
    (hlen : req.contentLength ≠ 0) :
    do_POST env (toL "/send_image") req st = .response 200 (toL "ok") ⟨q⟩ := by
  unfold do_POST
  rw [if_neg (by decide), if_neg (by decide),
      if_neg (by simp [hlen]), if_neg (by simp)]
  rw [if_pos (by rw [hmp]; exact hwrite)]
  unfold sendImageProcess
  rw [if_pos ⟨hai, hscript⟩, hrun]
  show sendImageAfterAi env st (aiTextSendImage env) = _
  unfold aiTextSendImage
  rw [hrun]
  simp only [ne_eq, not_true_eq_false, if_false, ite_not]
  unfold sendImageAfterAi
  by_cases hqe : q = []
  · exact absurd hqe hq
  · simp [hqe]

/-- Witness for C1 at the claim's concrete scenario. -/
theorem c1_send_image_witness :
    do_POST env0 (toL "/send_image") req1 st0
      = .response 200 (toL "ok") ⟨toL "1. What is 2+2?\nAnswer: 4"⟩ :=
  c1_send_image_stores_raw (toL "1. What is 2+2?\nAnswer: 4") env0 req1 st0
    rfl rfl rfl (by decide) rfl rfl (by decide)

/-- C1 counterexample: in the claim's scenario the handler responds 200 but
stores the raw extractor output `"1. What is 2+2?\nAnswer: 4"`, not the
trimmed `"1. What is 2+2?"` — `/send_image` never runs the normalization
pipeline. -/
theorem c1_send_image_counterexample :
    do_POST env0 (toL "/send_image") req1 st0
      = .response 200 (toL "ok") ⟨toL "1. What is 2+2?\nAnswer: 4"⟩ ∧
    (do_POST env0 (toL "/send_image") req1 st0).stateOf.last_captured_text
      ≠ toL "1. What is 2+2?" :=
  ⟨by decide, by decide⟩

/-- C3 (amended): `/send_text` responds 400 exactly on an empty body or an
empty/missing `text` field, 500 exactly when the non-empty body fails to
parse as a JSON object (or on internal error), and otherwise 200 `ok` with
the text stored. -/
theorem c3_send_text_statuses (env : Env) (req : PostReq) (st : ServerState) :
    ((do_POST env (toL "/send_text") req st).status? = some 400 ↔
      (req.contentLength = 0 ∨ ∃ m, req.sendTextParse = .obj [] m)) ∧
    ((do_POST env (toL "/send_text") req st).status? = some 500 ↔
      (req.contentLength ≠ 0 ∧ req.sendTextParse = .bad)) ∧
    (∀ text mode, req.contentLength ≠ 0 → req.sendTextParse = .obj text mode →
      text ≠ [] →
      do_POST env (toL "/send_text") req st = .response 200 (toL "ok") ⟨text⟩) := by
  unfold do_POST
  rw [if_neg (by decide), if_pos rfl]
  by_cases hlen : req.contentLength = 0
  · rw [if_pos hlen]
    refine ⟨by simp [HttpOut.status?, hlen], by simp [HttpOut.status?, hlen], ?_⟩
    intro text mode hlen' _ _
    exact absurd hlen hlen'
  · rw [if_neg hlen]
    cases hparse : req.sendTextParse with
    | bad =>
        refine ⟨?_, by simp [HttpOut.status?, hlen], ?_⟩
        · simp only [HttpOut.status?]
          constructor
          · intro h; simp at h
          · rintro (h | ⟨m, h⟩)
            · exact absurd h hlen
            · cases h
        · intro text mode _ hobj
          cases hobj
    | obj text mode =>
        by_cases htext : text = []
        · subst htext
          refine ⟨by simp [HttpOut.status?], ?_, ?_⟩
          · simp only [if_pos rfl, HttpOut.status?]
            constructor
            · intro h; simp at h
            · rintro ⟨-, h⟩; cases h
          · intro text' mode' _ hobj htext'
            injection hobj with h1 _
            exact absurd h1.symm htext'
        · refine ⟨?_, ?_, ?_⟩
          · simp only [HttpOut.status?, if_neg htext]
            constructor
            · intro h; simp at h
            · rintro (h | ⟨m, h⟩)
              · exact absurd h hlen
              · injection h with h1 _
                exact absurd h1 htext
          · simp only [HttpOut.status?, if_neg htext]
            constructor
            · intro h; simp at h
            · rintro ⟨-, h⟩; cases h
          · intro text' mode' _ hobj _
            injection hobj with h1 h2
            subst h1
            simp only [if_neg htext]

/-- Witness for C3: a well-formed non-empty submission gets 200 `ok` and is
stored. -/
theorem c3_send_text_witness :
    do_POST env0 (toL "/send_text")
      { contentLength := 9, sendTextParse := .obj (toL "hi") (toL "type"),
        multipart := false, multipartHasFile := false } st0
      = .response 200 (toL "ok") ⟨toL "hi"⟩ :=
  (c3_send_text_statuses env0
    { contentLength := 9, sendTextParse := .obj (toL "hi") (toL "type"),
      multipart := false, multipartHasFile := false } st0).2.2
    (toL "hi") (toL "type") (by decide) rfl (by decide)

/-- C3 counterexample: a non-empty body that is unparseable as JSON gets a
500 response, not the 400 the claim requires. -/
theorem c3_send_text_counterexample :
    do_POST env0 (toL "/send_text")
      { contentLength := 5, sendTextParse := .bad, multipart := false,
        multipartHasFile := false } st0 = .response 500 [] st0 ∧
    (do_POST env0 (toL "/send_text")
      { contentLength := 5, sendTextParse := .bad, multipart := false,
        multipartHasFile := false } st0).status? ≠ some 400 :=
  ⟨by decide, by decide⟩

lemma sendImageAfterAi_not_404 (env : Env) (st : ServerState) (aiText : List Char) :
    (sendImageAfterAi env st aiText).status? ≠ some 404 := by
  unfold sendImageAfterAi
  by_cases h1 : aiText = [] ∧ env.allow_ocr
  · rw [if_pos h1]
    cases env.ocr with
    | none => simp [HttpOut.status?]
    | some u =>
        by_cases h2 : pystrip u ≠ []
        · rw [if_pos h2]; simp [HttpOut.status?]
        · rw [if_neg h2]; simp [HttpOut.status?]
  · rw [if_neg h1]
    by_cases h2 : aiText ≠ []
    · rw [if_pos h2]; simp [HttpOut.status?]
    · rw [if_neg h2]; simp [HttpOut.status?]

/-- C10 (amended): every POST whose path is none of the three handled ones
reaches the dedented image block and crashes on the unassigned local
`length` — no response, no file write, no extraction; and no request at all
is ever answered 404 (the trailing 404 branch is dead code). -/
theorem c10_unknown_post_crashes :
    (∀ (env : Env) (path : List Char) (req : PostReq) (st : ServerState),
        path ≠ toL "/trigger_capture" → path ≠ toL "/send_text" →
        path ≠ toL "/send_image" → do_POST env path req st = .crash st) ∧
    (∀ (env : Env) (path : List Char) (req : PostReq) (st : ServerState),
        (do_POST env path req st).status? ≠ some 404) := by
  constructor
  · intro env path req st h1 h2 h3
    unfold do_POST
    rw [if_neg h1, if_neg h2, if_neg (by simp [h3]), if_pos h3]
  · intro env path req st
    unfold do_POST
    by_cases h1 : path = toL "/trigger_capture"
    · rw [if_pos h1]; simp [HttpOut.status?]
    · rw [if_neg h1]
      by_cases h2 : path = toL "/send_text"
      · rw [if_pos h2]
        by_cases hlen : req.contentLength = 0
        · rw [if_pos hlen]; simp [HttpOut.status?]
        · rw [if_neg hlen]
          cases req.sendTextParse with
          | bad => simp [HttpOut.status?]
          | obj text mode =>
              by_cases htext : text = []
              · simp [HttpOut.status?, if_pos htext]
              · simp [HttpOut.status?, if_neg htext]
      · rw [if_neg h2]
        by_cases h3 : path = toL "/send_image" ∧ req.contentLength = 0
        · rw [if_pos h3]; simp [HttpOut.status?]
        · rw [if_neg h3]
          by_cases h4 : path ≠ toL "/send_image"
          · rw [if_pos h4]; simp [HttpOut.status?]
          · rw [if_neg h4]
            by_cases h5 : (if req.multipart then req.multipartHasFile ∧ env.write_ok
                else env.write_ok)
            · rw [if_pos h5]
              unfold sendImageProcess
              by_cases h6 : env.use_ai ∧ env.ai_script_exists
              · rw [if_pos h6]
                cases env.ai_run with
                | raised => simp [HttpOut.status?]
                | fail => apply sendImageAfterAi_not_404
                | badJson => apply sendImageAfterAi_not_404
                | ok out => apply sendImageAfterAi_not_404
              · rw [if_neg h6]
                apply sendImageAfterAi_not_404
            · rw [if_neg h5]; simp [HttpOut.status?]

lemma sendImageAfterAi_state (env : Env) (st : ServerState) (aiText : List Char) :
    (sendImageAfterAi env st aiText).stateOf = st ∨
    (sendImageAfterAi env st aiText).stateOf.last_captured_text ≠ [] := by
  unfold sendImageAfterAi
  by_cases h1 : aiText = [] ∧ env.allow_ocr
  · rw [if_pos h1]
    cases env.ocr with
    | none => left; rfl
    | some u =>
        by_cases h2 : pystrip u ≠ []
        · rw [if_pos h2]; right; exact h2
        · rw [if_neg h2]; left; rfl
  · rw [if_neg h1]
    by_cases h2 : aiText ≠ []
    · rw [if_pos h2]; right; exact h2
    · rw [if_neg h2]; left; rfl

lemma sendImageProcess_state (env : Env) (st : ServerState) :
    (sendImageProcess env st).stateOf = st ∨
    (sendImageProcess env st).stateOf.last_captured_text ≠ [] := by
  unfold sendImageProcess
  by_cases h : env.use_ai ∧ env.ai_script_exists
  · rw [if_pos h]
    cases env.ai_run with
    | raised => left; rfl
    | fail => exact sendImageAfterAi_state env st _
    | badJson => exact sendImageAfterAi_state env st _
    | ok out => exact sendImageAfterAi_state env st _
  · rw [if_neg h]
    exact sendImageAfterAi_state env st []

/-- C4 (amended): the CaptureStore is never set to the empty string by any
handler; any failure of the capture/extract/normalize chain leaves it exactly
as it was; an extraction failure after an image was obtained signals failure,
but the no-image case returns silently, with no failure signal. -/
theorem c4_capture_store_discipline :
    (∀ (env : Env) (st : ServerState),
        ((do_capture_and_store env st).1 = .stored →
          (do_capture_and_store env st).2.last_captured_text ≠ []) ∧
        ((do_capture_and_store env st).1 ≠ .stored →
          (do_capture_and_store env st).2 = st) ∧
        (captureImage env = none →
          (do_capture_and_store env st).1 = .silentReturn) ∧
        (∀ img, captureImage env = some img → rawExtract env = [] →
          (do_capture_and_store env st).1 = .failSignaled)) ∧
    (∀ (env : Env) (path : List Char) (req : PostReq) (st : ServerState),
        (do_POST env path req st).stateOf = st ∨
        (do_POST env path req st).stateOf.last_captured_text ≠ []) := by
  constructor
  · intro env st
    cases hcap : captureImage env with
    | none =>
        simp only [do_capture_and_store, hcap]
        refine ⟨?_, ?_, ?_, ?_⟩
        · intro h; simp at h
        · intro _; trivial
        · intro _; trivial
        · intro img h; cases h
    | some img0 =>
        simp only [do_capture_and_store, hcap]
        by_cases hcomb : rawExtract env = []
        · rw [if_pos hcomb]
          refine ⟨?_, ?_, ?_, ?_⟩
          · intro h; simp at h
          · intro _; trivial
          · intro h; cases h
          · intro img' _ _; trivial
        · rw [if_neg hcomb]
          by_cases hc2 : normalizeHeuristics (rawExtract env) = []
          · rw [if_pos hc2]
            refine ⟨?_, ?_, ?_, ?_⟩
            · intro h; simp at h
            · intro _; trivial
            · intro h; cases h
            · intro img' _ hraw; exact absurd hraw hcomb
          · rw [if_neg hc2]
            refine ⟨?_, ?_, ?_, ?_⟩
            · intro _; exact hc2
            · intro h; exact absurd rfl h
            · intro h; cases h
            · intro img' _ hraw; exact absurd hraw hcomb
  · intro env path req st
    unfold do_POST
    by_cases h1 : path = toL "/trigger_capture"
    · rw [if_pos h1]; left; rfl
    · rw [if_neg h1]
      by_cases h2 : path = toL "/send_text"
      · rw [if_pos h2]
        by_cases hlen : req.contentLength = 0
        · rw [if_pos hlen]; left; rfl
        · rw [if_neg hlen]
          cases req.sendTextParse with
          | bad => left; rfl
          | obj text mode =>
              by_cases htext : text = []
              · simp only [if_pos htext]; left; rfl
              · simp only [if_neg htext]; right; exact htext
      · rw [if_neg h2]
        by_cases h3 : path = toL "/send_image" ∧ req.contentLength = 0
        · rw [if_pos h3]; left; rfl
        · rw [if_neg h3]
          by_cases h4 : path ≠ toL "/send_image"
          · rw [if_pos h4]; left; rfl
          · rw [if_neg h4]
            by_cases h5 : (if req.multipart then req.multipartHasFile ∧ env.write_ok
                else env.write_ok)
            · rw [if_pos h5]
              exact sendImageProcess_state env st
            · rw [if_neg h5]; left; rfl

/-- Witness for C4: with every screenshot call failing, the capture operation
returns silently and the store is untouched. -/
theorem c4_capture_store_witness :
    (do_capture_and_store env0 st0).1 = CapOutcome.silentReturn :=
  (c4_capture_store_discipline.1 env0 st0).2.2.1 rfl

/-- C4 counterexample: when no frames are captured, `do_capture_and_store`
returns without calling `signal_failure()` (the claim requires a failure
signal on every chain failure); the store is unchanged. -/
theorem c4_capture_store_counterexample :
    do_capture_and_store env0 st0 = (CapOutcome.silentReturn, st0) ∧
    CapOutcome.silentReturn ≠ CapOutcome.failSignaled :=
  ⟨by decide, by decide⟩

/-- Witness for C10: a POST to an unknown path ends in the unhandled-error
outcome with the state untouched. -/
theorem c10_unknown_post_witness :
    do_POST env0 (toL "/unknown") req1 st0 = HttpOut.crash st0 :=
  c10_unknown_post_crashes.1 env0 (toL "/unknown") req1 st0
    (by decide) (by decide) (by decide)

/-- C10 counterexample: on an unknown path the handler neither sends any
response nor runs the image-submission logic — it crashes — while the same
request on `/send_image` does not crash. -/
theorem c10_unknown_post_counterexample :
    do_POST env0 (toL "/unknown") req1 st0 = HttpOut.crash st0 ∧
    (do_POST env0 (toL "/unknown") req1 st0).status? = none ∧
    do_POST env0 (toL "/send_image") req1 st0 ≠ HttpOut.crash st0 :=
  ⟨by decide, by decide, by decide⟩

end Neo
